import Mathlib

/-!
# RainCache-ts: a shallow embedding of the cache engine

This file embeds, in Lean, the parts of the RainCache-ts source that the
verified claims are about:

* the Redis storage engine (`src/unnamed/part_004`, `RedisStorageEngine`,
  with `useHash = false`, its default): JSON-record keys and set keys share
  one Redis keyspace; `upsert` shallow-merges (`Object.assign`) the new data
  over the previously stored record; JSON serialisation round-trips and is
  modelled as the identity;
* the per-entity caches (`RoleCache`, `EmojiCache`, `MemberCache`,
  `GuildCache`, `ChannelCache`, `ChannelMapCache`) in their unbound mode,
  plus the bound-mode `update` of `EmojiCache` (modelled with explicit fuel
  since the source recursion never terminates while `boundObject` is set);
* the event dispatcher (`src/unnamed/part_001`, `EventProcessor`): the
  `inbound` disabled-events guard, the `GUILD_ROLE_DELETE` and
  `GUILD_EMOJIS_UPDATE` cases of `process`, `handlePresenceUpdate` and
  `flushQueue`.

JavaScript records are modelled as association lists of fields; `undefined`
reads return `Option.none`.
-/

/-- A JavaScript value stored in a cache record: a string, a boolean,
`null`, a nested object, or an array. -/
inductive FieldVal where
  | s : String → FieldVal
  | b : Bool → FieldVal
  | null : FieldVal
  | o : List (String × FieldVal) → FieldVal
  | arr : List FieldVal → FieldVal

/-- A JavaScript object: an association list from field names to values
(one entry per key, first entry wins on lookup). -/
abbrev Record := List (String × FieldVal)

/-- Association-list lookup (JavaScript property read; `none` models
`undefined`). -/
def alistGet {α : Type} : List (String × α) → String → Option α
  | [], _ => none
  | p :: r, k => if p.1 = k then some p.2 else alistGet r k

/-- Association-list assignment (JavaScript property write): replace the
value in place when the key exists, append the key otherwise. -/
def alistSet {α : Type} : List (String × α) → String → α → List (String × α)
  | [], k, v => [(k, v)]
  | p :: r, k, v => if p.1 = k then (k, v) :: r else p :: alistSet r k v

/-- The keys of an association list. -/
def alistKeys {α : Type} (l : List (String × α)) : List String :=
  l.map Prod.fst

/-- Field lookup, `r[k]`. -/
def recGet (r : Record) (k : String) : Option FieldVal :=
  alistGet r k

/-- Field assignment `r[k] = v`. -/
def recSet (r : Record) (k : String) (v : FieldVal) : Record :=
  alistSet r k v

/-- `delete r[k]`. -/
def recDelete : Record → String → Record
  | [], _ => []
  | p :: r, k => if p.1 = k then recDelete r k else p :: recDelete r k

/-- `Object.assign(target, src)`: every field of `src` is written over
`target`, in order. -/
def assign (target src : Record) : Record :=
  src.foldl (fun acc p => recSet acc p.1 p.2) target

/-- The id field of a record, when it is a string (`r.id`). -/
def idOf (r : Record) : Option String :=
  match recGet r "id" with
  | some (.s i) => some i
  | _ => none

/-- A value in the single Redis keyspace: either a JSON-serialised record
(`SET`/`GET` keys) or a Redis set (`SADD`/`SMEMBERS` keys). -/
inductive RVal where
  | str : Record → RVal
  | set : List String → RVal

/-- The storage state: the Redis keyspace (`RedisStorageEngine` with
`useHash = false`). -/
def Engine : Type := String → Option RVal

/-- The empty keyspace. -/
def Engine.empty : Engine := fun _ => none

/-- Write one key. -/
def updateKey (e : Engine) (k : String) (v : RVal) : Engine :=
  fun k' => if k' = k then some v else e k'

/-- `DEL key` (`RedisStorageEngine.remove`, `useHash = false`). -/
def deleteKey (e : Engine) (k : String) : Engine :=
  fun k' => if k' = k then none else e k'

/-- `RedisStorageEngine.get` (`useHash = false`): `parseData` of the raw
string, `null` when the key is absent.  Serialisation round-trips, so it is
modelled as the identity on records. -/
def engineGet (e : Engine) (k : String) : Option Record :=
  match e k with
  | some (.str r) => some r
  | _ => none

/-- `RedisStorageEngine.upsert` (`useHash = false`): read the old record
(`{}` when absent), `Object.assign` the update over it, store the result. -/
def engineUpsert (e : Engine) (k : String) (data : Record) : Engine :=
  updateKey e k (.str (assign ((engineGet e k).getD []) data))

/-- `SMEMBERS`: members of a set key, `[]` when absent
(`RedisStorageEngine.getListMembers`). -/
def smembers (e : Engine) (k : String) : List String :=
  match e k with
  | some (.set l) => l
  | _ => []

/-- `SADD` of a batch of ids (`RedisStorageEngine.addToList`): each id not
yet in the set is added. -/
def sadd (e : Engine) (k : String) (ids : List String) : Engine :=
  updateKey e k (.set (ids.foldl (fun acc i => if i ∈ acc then acc else acc ++ [i]) (smembers e k)))

/-- `SREM` (`RedisStorageEngine.removeFromList`). -/
def srem (e : Engine) (k : String) (i : String) : Engine :=
  updateKey e k (.set ((smembers e k).filter (fun x => x ≠ i)))

/-- `SISMEMBER` (`RedisStorageEngine.isListMember`). -/
def sismember (e : Engine) (k : String) (i : String) : Bool :=
  i ∈ smembers e k

/-- `SCARD` (`RedisStorageEngine.getListCount`). -/
def scard (e : Engine) (k : String) : Nat :=
  (smembers e k).length

-- JavaScript truthiness and the cache layer

/-- JavaScript truthiness of a field read: `undefined`, `null`, `false` and
`""` are falsy; objects and arrays (even empty) are truthy. -/
def truthy : Option FieldVal → Bool
  | none => false
  | some (.s s) => s ≠ ""
  | some (.b b) => b
  | some .null => false
  | some (.o _) => true
  | some (.arr _) => true

/-- `RoleCache.buildId(roleId, guildId)`: `role.{guildId}.{roleId}`, falling
back to the one-argument form `role.{roleId}` when the guild id is falsy. -/
def roleBuildId (roleId guildId : String) : String :=
  if guildId = "" then "role." ++ roleId else "role." ++ (guildId ++ ("." ++ roleId))

/-- `EmojiCache.buildId(emojiId, guildId)`. -/
def emojiBuildId (emojiId guildId : String) : String :=
  if guildId = "" then "emoji." ++ emojiId else "emoji." ++ (guildId ++ ("." ++ emojiId))

/-- `MemberCache.buildId(userId, guildId)`. -/
def memberBuildId (userId guildId : String) : String :=
  if guildId = "" then "member." ++ userId else "member." ++ (guildId ++ ("." ++ userId))

/-- Modelled from the spec: `UserCache.update` — the UserCache implementation
is not under `src/` (only its type declaration is).  Per §3 the User entity
lives in the global `user` namespace and per §4.1/§6 an update merge-upserts
the record at the namespaced key. -/
def userCacheUpdate (st : Engine) (id : String) (data : Record) : Engine :=
  engineUpsert st ("user." ++ id) data

/-- Modelled from the spec: `PresenceCache.update` — the implementation is
not under `src/`, only its declaration (`part_008`).  Per that declaration's
documentation it removes `guild_id`, `roles` and `user` from the update
before saving, and per §3/§4.2 the presence is merge-upserted keyed by user
id (global scope, `presence` namespace). -/
def presenceCacheUpdate (st : Engine) (id : String) (data : Record) : Engine :=
  engineUpsert st ("presence." ++ id)
    (recDelete (recDelete (recDelete data "guild_id") "roles") "user")

/-- `RoleCache.update`, unbound mode (`dist/cache/RoleCache.js` 48–66):
reject on a falsy guild id before any write; default `data.guild_id` and
`data.id` from the arguments; add to the guild's role index; merge-upsert. -/
def roleCacheUpdate (st : Engine) (id guildId : String) (data : Record) :
    Except String Engine :=
  if guildId = "" then .error "Missing guild id"
  else
    let data := if truthy (recGet data "guild_id") then data
                else recSet data "guild_id" (.s guildId)
    let data := if truthy (recGet data "id") then data else recSet data "id" (.s id)
    let st := sadd st ("role." ++ guildId) [id]
    .ok (engineUpsert st (roleBuildId id guildId) data)

/-- `RoleCache.remove`, unbound mode (`dist/cache/RoleCache.js` 73–85): look
up the record; when present, remove the id from the guild's role index and
delete the record; otherwise do nothing. -/
def roleCacheRemove (st : Engine) (id guildId : String) : Engine :=
  match engineGet st (roleBuildId id guildId) with
  | some _ => deleteKey (srem st ("role." ++ guildId) id) (roleBuildId id guildId)
  | none => st

/-- `RoleCache.get`, unbound mode (`dist/cache/RoleCache.js` 31–40): the
record wrapped by the returned bound instance, `none` on a miss. -/
def roleCacheGet (st : Engine) (id guildId : String) : Option Record :=
  engineGet st (roleBuildId id guildId)

/-- `EmojiCache.update`, unbound mode (`src/cache/EmojiCache.ts` 53–62):
add to the guild's emoji index, then merge-upsert the record. -/
def emojiCacheUpdate (st : Engine) (id guildId : String) (data : Record) : Engine :=
  engineUpsert (sadd st ("emoji." ++ guildId) [id]) (emojiBuildId id guildId) data

/-- `EmojiCache.remove`, unbound mode (`src/cache/EmojiCache.ts` 70–81). -/
def emojiCacheRemove (st : Engine) (id guildId : String) : Engine :=
  match engineGet st (emojiBuildId id guildId) with
  | some _ => deleteKey (srem st ("emoji." ++ guildId) id) (emojiBuildId id guildId)
  | none => st

/-- `EmojiCache.get`, unbound mode (`src/cache/EmojiCache.ts` 34–44): the
record wrapped by the returned bound instance, `none` on a miss. -/
def emojiCacheGet (st : Engine) (id guildId : String) : Option Record :=
  engineGet st (emojiBuildId id guildId)

/-- `EmojiCache.update` including its bound branch
(`src/cache/EmojiCache.ts` 54–58).  The bound branch runs
`this.bindObject(data)` — which keeps `boundObject` set — and then awaits
`this.update(id, guildId, data)` again; the recursion is modelled with
explicit fuel.  The result is the pair (new bound object, new storage
state); `none` means the call has not returned within `fuel` re-entries. -/
def emojiCacheUpdateStep : Nat → Option Record → Engine → String → String → Record →
    Option (Option Record × Engine)
  | 0, _, _, _, _, _ => none
  | fuel + 1, some _, st, id, guildId, data =>
      emojiCacheUpdateStep fuel (some data) st id guildId data
  | _ + 1, none, st, id, guildId, data =>
      some (none, emojiCacheUpdate st id guildId data)

/-- The `data.guild_id`/`data.id` defaulting steps of `MemberCache.update`
(`dist/cache/MemberCache.js` 62–67): a falsy `guild_id` (resp. `id`) field
is overwritten from the corresponding argument. -/
def memberDefaulted (data : Record) (id g : String) : Record :=
  let d := if truthy (recGet data "guild_id") then data else recSet data "guild_id" (.s g)
  if truthy (recGet d "id") then d else recSet d "id" (.s id)

/-- The `data.user` step of `MemberCache.update`
(`dist/cache/MemberCache.js` 68–71): when the data embeds a `user` object,
route it to the user cache and strip it from the member data.  (A truthy
non-object `user` field does not occur in the modelled flows.) -/
def memberUserStep (st : Engine) (d : Record) : Engine × Record :=
  match recGet d "user" with
  | some (.o u) => (userCacheUpdate st ((idOf u).getD "undefined") u, recDelete d "user")
  | _ => (st, d)

/-- `MemberCache.update`, unbound mode (`dist/cache/MemberCache.js` 53–75):
throw on an empty guild id before any write; default `data.guild_id` and
`data.id` from the arguments; route an embedded `user` object to the user
cache and strip it; add to the guild's member index; merge-upsert. -/
def memberCacheUpdate (st : Engine) (id guildId : String) (data : Record) :
    Except String Engine :=
  if guildId = "" then .error ("Empty guild id for member " ++ id)
  else
    let data := if truthy (recGet data "guild_id") then data
                else recSet data "guild_id" (.s guildId)
    let data := if truthy (recGet data "id") then data else recSet data "id" (.s id)
    let stp := memberUserStep st data
    let st := sadd stp.1 ("member." ++ guildId) [id]
    .ok (engineUpsert st (memberBuildId id guildId) stp.2)

/-- `MemberCache.remove`, unbound mode (`dist/cache/MemberCache.js` 82–94). -/
def memberCacheRemove (st : Engine) (id guildId : String) : Engine :=
  match engineGet st (memberBuildId id guildId) with
  | some _ => deleteKey (srem st ("member." ++ guildId) id) (memberBuildId id guildId)
  | none => st

/-- `MemberCache.get`, unbound mode (`dist/cache/MemberCache.js` 36–45). -/
def memberCacheGet (st : Engine) (id guildId : String) : Option Record :=
  engineGet st (memberBuildId id guildId)

/-- `ChannelCache.remove` (`src/cache/ChannelCache.ts` 101–112): channels
are globally namespaced (`channel.{id}`) with the flat global index at key
`channel`. -/
def channelCacheRemove (st : Engine) (id : String) : Engine :=
  match engineGet st ("channel." ++ id) with
  | some _ => deleteKey (srem st "channel" id) ("channel." ++ id)
  | none => st

/-- `ChannelCache.get`, unbound mode (`src/cache/ChannelCache.ts` 52–62). -/
def channelCacheGet (st : Engine) (id : String) : Option Record :=
  engineGet st ("channel." ++ id)

/-- `GuildCache.get`, unbound mode (`dist/cache/GuildCache.js` 48–59). -/
def guildCacheGet (st : Engine) (id : String) : Option Record :=
  engineGet st ("guild." ++ id)

/-- `ChannelMapCache.buildId(this._buildMapId(id, type))`
(`src/cache/ChannelMapCache.ts` 135–137): `channelmap.{type}.{id}`. -/
def channelMapKey (id mapType : String) : String :=
  "channelmap." ++ (mapType ++ ("." ++ id))

/-- `ChannelMapCache.remove` (`src/cache/ChannelMapCache.ts` 82–94): the
map is stored as a Redis set at `channelmap.{type}.{id}`; `SMEMBERS` always
yields an array (truthy), so the guard is always taken and the key is
deleted. -/
def channelMapCacheRemove (st : Engine) (id mapType : String) : Engine :=
  deleteKey st (channelMapKey id mapType)

/-- `GuildCache.remove`, unbound mode (`dist/cache/GuildCache.js` 134–163):
when the guild record exists, enumerate the guild's channel map and its
role/emoji/member indexes, then cascade: remove every emoji, role, mapped
channel and member, delete the channel map, remove the guild from the
global `guild` index and delete the guild record. -/
def guildCacheRemove (st : Engine) (id : String) : Engine :=
  match engineGet st ("guild." ++ id) with
  | none => st
  | some _ =>
    let channels := smembers st (channelMapKey id "guild")
    let roles := smembers st ("role." ++ id)
    let emojis := smembers st ("emoji." ++ id)
    let members := smembers st ("member." ++ id)
    let st1 := emojis.foldl (fun s e => emojiCacheRemove s e id) st
    let st2 := roles.foldl (fun s r => roleCacheRemove s r id) st1
    let st3 := channels.foldl (fun s c => channelCacheRemove s c) st2
    let st4 := members.foldl (fun s m => memberCacheRemove s m id) st3
    let st5 := channelMapCacheRemove st4 id "guild"
    let st6 := srem st5 "guild" id
    deleteKey st6 ("guild." ++ id)

/-- `ChannelMapCache._checkDupes(oldIds, newIds)`
(`src/cache/ChannelMapCache.ts` 119–126): remove from `newIds` the first
occurrence of each old id present, then return `oldIds ++ newIds`. -/
def checkDupes (oldIds newIds : List String) : List String :=
  oldIds ++ oldIds.foldl (fun acc o => acc.erase o) newIds

/-- `ChannelMapCache._removeOldChannels(oldChannels, removeChannels)`
(`src/cache/ChannelMapCache.ts` 103–110): erase the first occurrence of
each id of `removeChannels` from `oldChannels`. -/
def removeOldChannels (oldChannels removeChannels : List String) : List String :=
  removeChannels.foldl (fun acc r => acc.erase r) oldChannels

/-- `ChannelMapCache.update`, unbound mode (`src/cache/ChannelMapCache.ts`
54–74).  `oldCacheData` comes from `get`, whose `SMEMBERS` result is always
an array (truthy), so exactly one of `_checkDupes` (additive merge) or
`_removeOldChannels` (remove mode) runs; the old set key is then deleted
and the resulting ids are `SADD`ed back. -/
def channelMapCacheUpdate (st : Engine) (id : String) (data : List String)
    (mapType : String) (removeFlag : Bool) : Engine :=
  let key := channelMapKey id mapType
  let old := smembers st key
  let newData := if removeFlag then removeOldChannels old data else checkDupes old data
  sadd (deleteKey st key) key newData

/-- `PermissionOverwriteCache.buildId`
(`dist/cache/PermissionOverwriteCache.js` 108–113). -/
def permOverwriteBuildId (permissionId channelId : String) : String :=
  if channelId = "" then "permissionoverwrite." ++ permissionId
  else "permissionoverwrite." ++ (channelId ++ ("." ++ permissionId))

/-- `PermissionOverwriteCache.update`, unbound mode
(`dist/cache/PermissionOverwriteCache.js` 51–60): add to the channel's
overwrite index, then merge-upsert. -/
def permissionOverwriteCacheUpdate (st : Engine) (id channelId : String)
    (data : Record) : Engine :=
  engineUpsert (sadd st ("permissionoverwrite." ++ channelId) [id])
    (permOverwriteBuildId id channelId) data

/-- `PermissionOverwriteCache.remove`, unbound mode
(`dist/cache/PermissionOverwriteCache.js` 67–79): look the record up; when
present, remove the id from the channel's overwrite index and delete the
record. -/
def permissionOverwriteCacheRemove (st : Engine) (id channelId : String) : Engine :=
  match engineGet st (permOverwriteBuildId id channelId) with
  | some _ => deleteKey (srem st ("permissionoverwrite." ++ channelId) id)
      (permOverwriteBuildId id channelId)
  | none => st

/-- `PermissionOverwriteCache.get`, unbound mode
(`dist/cache/PermissionOverwriteCache.js` 32–43): the record wrapped by the
returned bound instance, `none` on a miss. -/
def permissionOverwriteCacheGet (st : Engine) (id channelId : String) : Option Record :=
  engineGet st (permOverwriteBuildId id channelId)

/-- JavaScript template interpolation of a field value used as a key
fragment or argument; only string values occur in the modelled flows
(`undefined` interpolates as `"undefined"`; other value shapes do not
occur in the verified flows). -/
def interp : Option FieldVal → String
  | some (.s s) => s
  | _ => "undefined"

/-- `ChannelCache.update`, unbound mode (`src/cache/ChannelCache.ts`
70–94): map the channel under its guild's (or first recipient's) channel
map, fan out each `permission_overwrites` entry to the overwrite cache,
strip `permission_overwrites` and `recipients`, add to the global channel
index and merge-upsert the record.  (Non-object recipients/overwrites do
not occur in the modelled flows and are skipped.) -/
def channelCacheUpdate (st : Engine) (id : String) (data : Record) : Engine :=
  let st :=
    if truthy (recGet data "guild_id") then
      channelMapCacheUpdate st (interp (recGet data "guild_id"))
        [interp (recGet data "id")] "guild" false
    else if truthy (recGet data "recipients") then
      match recGet data "recipients" with
      | some (.arr (FieldVal.o r0 :: _)) =>
          channelMapCacheUpdate st ((idOf r0).getD "undefined")
            [interp (recGet data "id")] "user" false
      | _ => st
    else st
  let st :=
    if truthy (recGet data "permission_overwrites") then
      match recGet data "permission_overwrites" with
      | some (.arr ows) =>
          ows.foldl (fun s ow =>
            match ow with
            | .o o => permissionOverwriteCacheUpdate s ((idOf o).getD "undefined") id o
            | _ => s) st
      | _ => st
    else st
  let data := recDelete (recDelete data "permission_overwrites") "recipients"
  engineUpsert (sadd st "channel" [id]) ("channel." ++ id) data

/-- The `data.channels` fan-out of `GuildCache.update`
(`dist/cache/GuildCache.js` 77–84): map the channel ids under the guild's
channel map, then upsert each channel with its `guild_id` set. -/
def guildChannelsFanOut (st : Engine) (id : String) (data : Record) : Engine :=
  match recGet data "channels" with
  | some (.arr chans) =>
      if chans.length > 0 then
        let chanIds := chans.map (fun c =>
          match c with
          | .o co => interp (recGet co "id")
          | _ => "undefined")
        let st := channelMapCacheUpdate st id chanIds "guild" false
        chans.foldl (fun s c =>
          match c with
          | .o co =>
              let co := recSet co "guild_id" (.s id)
              channelCacheUpdate s (interp (recGet co "id")) co
          | _ => s) st
      else st
  | _ => st

/-- The `data.members` fan-out of `GuildCache.update`
(`dist/cache/GuildCache.js` 85–93): upsert each member (with `guild_id`
set) keyed by its embedded user's id; a member without an embedded `user`
object would crash the source (modelled as a `TypeError` rejection). -/
def guildMembersFanOut (st : Engine) (id : String) (data : Record) :
    Except String Engine :=
  match recGet data "members" with
  | some (.arr membs) =>
      if membs.length > 0 then
        membs.foldlM (fun s m =>
          match m with
          | FieldVal.o mo =>
              let mo := recSet mo "guild_id" (.s id)
              match recGet mo "user" with
              | some (.o u) => memberCacheUpdate s ((idOf u).getD "undefined") id mo
              | _ => Except.error "TypeError: member.user is undefined"
          | _ => pure s) st
      else pure st
  | _ => pure st

/-- The `data.presences` fan-out of `GuildCache.update`
(`dist/cache/GuildCache.js` 94–101): upsert each presence keyed by its
embedded user's id (a presence without a `user` object would crash the
source, modelled as a `TypeError` rejection). -/
def guildPresencesFanOut (st : Engine) (data : Record) :
    Except String Engine :=
  match recGet data "presences" with
  | some (.arr pres) =>
      if pres.length > 0 then
        pres.foldlM (fun s p =>
          match p with
          | FieldVal.o po =>
              match recGet po "user" with
              | some (.o u) => pure (presenceCacheUpdate s ((idOf u).getD "undefined") po)
              | _ => Except.error "TypeError: presence.user is undefined"
          | _ => pure s) st
      else pure st
  | _ => pure st

/-- The `data.roles` fan-out of `GuildCache.update`
(`dist/cache/GuildCache.js` 102–109). -/
def guildRolesFanOut (st : Engine) (id : String) (data : Record) :
    Except String Engine :=
  match recGet data "roles" with
  | some (.arr rs) =>
      if rs.length > 0 then
        rs.foldlM (fun s r =>
          match r with
          | FieldVal.o ro => roleCacheUpdate s ((idOf ro).getD "undefined") id ro
          | _ => pure s) st
      else pure st
  | _ => pure st

/-- The `data.emojis` fan-out of `GuildCache.update`
(`dist/cache/GuildCache.js` 110–116). -/
def guildEmojisFanOut (st : Engine) (id : String) (data : Record) : Engine :=
  match recGet data "emojis" with
  | some (.arr es) =>
      if es.length > 0 then
        es.foldl (fun s e =>
          match e with
          | FieldVal.o eo => emojiCacheUpdate s ((idOf eo).getD "undefined") id eo
          | _ => s) st
      else st
  | _ => st

/-- `GuildCache.update`, unbound mode (`dist/cache/GuildCache.js` 71–128):
fan the embedded `channels`, `members`, `presences`, `roles` and `emojis`
arrays out to their caches in source order (an error from a member/role
upsert rejects the whole update, as in the source), strip those arrays
(plus `voice_states` and `features`) from the record, add the guild to the
global `guild` index and merge-upsert the guild record. -/
def guildCacheUpdate (st : Engine) (id : String) (data : Record) :
    Except String Engine :=
  let st := guildChannelsFanOut st id data
  match guildMembersFanOut st id data with
  | .error e => .error e
  | .ok st =>
    match guildPresencesFanOut st data with
    | .error e => .error e
    | .ok st =>
      match guildRolesFanOut st id data with
      | .error e => .error e
      | .ok st =>
        let st := guildEmojisFanOut st id data
        let data := recDelete (recDelete (recDelete (recDelete (recDelete (recDelete
          (recDelete data "members") "voice_states") "roles") "presences") "emojis")
          "features") "channels"
        .ok (engineUpsert (sadd st "guild" [id]) ("guild." ++ id) data)

-- Event dispatcher (EventProcessor, src/unnamed/part_001)

/-- The presence coalescing buffer `presenceQueue`: a JavaScript object
mapping user ids to pending, not-yet-flushed presence entries (one entry
per key). -/
abbrev PQueue := List (String × Record)

/-- `q[k]` on the presence queue. -/
def qGet (q : PQueue) (k : String) : Option Record :=
  alistGet q k

/-- `q[k] = v` on the presence queue: replace in place or append. -/
def qSet (q : PQueue) (k : String) (v : Record) : PQueue :=
  alistSet q k v

/-- The object literal `{status, game, id: user.id, user}` built by
`handlePresenceUpdate` from a presence event (an absent `status`/`game`
is JavaScript `undefined`, modelled as `null`; the verified flows always
supply both). -/
def presenceEntry (ev : Record) (uid : String) (u : Record) : Record :=
  [("status", (recGet ev "status").getD .null),
   ("game", (recGet ev "game").getD .null),
   ("id", .s uid),
   ("user", .o u)]

/-- The `roles`/`guild_id` stripping of `handlePresenceUpdate`
(`part_001` 141–146): each field is deleted when truthy. -/
def presenceStrip (ev : Record) : Record :=
  let ev := if truthy (recGet ev "roles") then recDelete ev "roles" else ev
  if truthy (recGet ev "guild_id") then recDelete ev "guild_id" else ev

/-- `EventProcessor.handlePresenceUpdate` (`part_001` 140–163): strip the
truthy `roles` and `guild_id` fields, then merge the event's
`{status, game, id, user}` over the queue entry for `user.id`, or create
that entry.  (An event without a `user` object would crash the source
reading `user.id`; it does not occur in the verified flows and is modelled
as leaving the queue unchanged.) -/
def handlePresenceUpdate (q : PQueue) (ev : Record) : PQueue :=
  let ev := presenceStrip ev
  match recGet ev "user" with
  | some (.o u) =>
      match idOf u with
      | some uid =>
          match qGet q uid with
          | some old => qSet q uid (assign old (presenceEntry ev uid u))
          | none => qSet q uid (presenceEntry ev uid u)
      | none => q
  | _ => q

/-- `EventProcessor.flushQueue` (`part_001` 210–221): swap the whole queue
for an empty one, then issue one `presenceCache.update(key, entry)` per
buffered entry.  Returns the storage state after the writes and the new
(empty) queue. -/
def flushQueue (st : Engine) (q : PQueue) : Engine × PQueue :=
  (q.foldl (fun s kv => presenceCacheUpdate s kv.1 kv.2) st, [])

/-- The `GUILD_EMOJIS_UPDATE` case of `EventProcessor.process`
(`part_001` 108–126).  `oldEmotes` is `emojiCache.filter(() => true,
guild_id)`: every id of the guild's emoji index resolved through storage
(a dangling id resolves to `none`; the source would then crash reading
`.id`, which does not occur in the verified flows).  First loop: the found
old entry is a fresh bound cache instance, never reference-equal to the
event payload, so `!oldEmote || oldEmote !== emoji` is always true and
every event emoji is upserted (an event emoji without a string id is
outside the modelled flows and is skipped).  Second loop: every old emoji
whose id is absent from the event list is removed. -/
def processGuildEmojisUpdate (st : Engine) (guildId : String) (emojis : List Record) :
    Engine :=
  let oldEmotes : List (Option Record) :=
    (smembers st ("emoji." ++ guildId)).map (fun i => engineGet st (emojiBuildId i guildId))
  let st1 := emojis.foldl (fun s e =>
    match idOf e with
    | some eid => emojiCacheUpdate s eid guildId e
    | none => s) st
  oldEmotes.foldl (fun s oldE =>
    match oldE with
    | some oe =>
        match idOf oe with
        | some oid =>
            if emojis.any (fun e => idOf e = some oid) then s
            else emojiCacheRemove s oid guildId
        | none => s
    | none => s) st1

/-- The events of `EventProcessor.process` modelled in this development;
`other` covers every remaining kind tag. -/
inductive DispatchEvent where
  | guildRoleDelete (guildId roleId : String)
  | guildEmojisUpdate (guildId : String) (emojis : List Record)
  | presenceUpdate (d : Record)
  | guildMemberAdd (userId guildId : String) (d : Record)
  | guildMemberRemove (userId guildId : String)
  | other (kindTag : String)

/-- The event's kind tag `event.t`. -/
def DispatchEvent.kind : DispatchEvent → String
  | .guildRoleDelete _ _ => "GUILD_ROLE_DELETE"
  | .guildEmojisUpdate _ _ => "GUILD_EMOJIS_UPDATE"
  | .presenceUpdate _ => "PRESENCE_UPDATE"
  | .guildMemberAdd _ _ _ => "GUILD_MEMBER_ADD"
  | .guildMemberRemove _ _ => "GUILD_MEMBER_REMOVE"
  | .other tag => tag

/-- The dispatcher's cached state: the storage keyspace (records and
indexes) and the presence coalescing buffer. -/
structure DispatchState where
  engine : Engine
  presenceQueue : PQueue

/-- `EventProcessor.process` on the modelled event kinds (`part_001`
50–139).  `GUILD_ROLE_DELETE` (line 106) calls
`roleCache.remove(event.d.guild_id, event.d.role_id)`, whose first
parameter is the role id and second the guild id.  A rejected member
update leaves storage unchanged (the error is thrown before any write and
propagates to the transport boundary).  Unrecognised kinds are logged and
ignored. -/
def process (st : DispatchState) : DispatchEvent → DispatchState
  | .guildRoleDelete guildId roleId =>
      { st with engine := roleCacheRemove st.engine guildId roleId }
  | .guildEmojisUpdate guildId emojis =>
      { st with engine := processGuildEmojisUpdate st.engine guildId emojis }
  | .presenceUpdate d =>
      { st with presenceQueue := handlePresenceUpdate st.presenceQueue d }
  | .guildMemberAdd userId guildId d =>
      { st with engine := match memberCacheUpdate st.engine userId guildId d with
                          | .ok e => e
                          | .error _ => st.engine }
  | .guildMemberRemove userId guildId =>
      { st with engine := memberCacheRemove st.engine userId guildId }
  | .other _ => st

/-- `EventProcessor.inbound` (`part_001` 43–49): when the event's kind tag
is mapped truthy in `options.disabledEvents`, return the event without
calling `process`; otherwise process it and return it.  `disabledEvents`
is modelled as the list of kind tags mapped to a truthy value. -/
def inbound (disabledEvents : List String) (st : DispatchState) (ev : DispatchEvent) :
    DispatchState × DispatchEvent :=
  if ev.kind ∈ disabledEvents then (st, ev) else (process st ev, ev)



-- Demo states and shared removal shape used by the theorems below

/-- The shared shape of the unbound `remove` of the scope-indexed caches:
look the record up at `bid i`; when present, `SREM` the id from the index
set `idx` and delete the record key. -/
def idxRemove (bid : String → String) (idx : String) (s : Engine) (i : String) : Engine :=
  match engineGet s (bid i) with
  | some _ => deleteKey (srem s idx i) (bid i)
  | none => s

/-- The storage state exhibiting the `GUILD_ROLE_DELETE` argument swap: one
role `r` of guild `g`, stored at `role.g.r` and indexed under `role.g`. -/
def roleDeleteDemoState : Engine :=
  updateKey (updateKey Engine.empty "role.g" (.set ["r"]))
    "role.g.r" (.str [("id", .s "r"), ("guild_id", .s "g")])


/-- A concrete state holding one emoji, role, member and permission
overwrite of scope `g`, one channel and one guild record, all with id
`x`. -/
def c4DemoState : Engine :=
  updateKey (updateKey (updateKey (updateKey (updateKey (updateKey Engine.empty
    "emoji.g.x" (.str [])) "role.g.x" (.str [])) "member.g.x" (.str []))
    "channel.x" (.str [])) "guild.x" (.str []))
    "permissionoverwrite.g.x" (.str [])

/-- A guild `g` with emoji `a`, `b`, `c` indexed and stored. -/
def c7DemoState : Engine :=
  updateKey (updateKey (updateKey (updateKey Engine.empty
    "emoji.g" (.set ["a", "b", "c"]))
    "emoji.g.a" (.str [("id", .s "a")]))
    "emoji.g.b" (.str [("id", .s "b")]))
    "emoji.g.c" (.str [("id", .s "c")])

/-- A guild `G` with one role, one member and one mapped channel, all
indexed with their records present. -/
def c3DemoState : Engine :=
  updateKey (updateKey (updateKey (updateKey (updateKey (updateKey (updateKey Engine.empty
    "guild.G" (.str [("id", .s "G")]))
    "role.G" (.set ["r1"]))
    "role.G.r1" (.str [("id", .s "r1")]))
    "member.G" (.set ["m1"]))
    "member.G.m1" (.str [("id", .s "m1")]))
    "channelmap.guild.G" (.set ["ch1"]))
    "channel.ch1" (.str [("id", .s "ch1")])


/-- The C5 counterexample payload: a member update whose data embeds a
`user` object. -/
def c5Data : Record := [("user", .o [("id", .s "u")]), ("nick", .s "n")]


-- Lemma toolkit

-- Basic keyspace lemmas

theorem engineGet_updateKey (e : Engine) (k : String) (v : RVal) (k' : String) :
    engineGet (updateKey e k v) k' =
      if k' = k then (match v with | .str r => some r | .set _ => none) else engineGet e k' := by
  unfold engineGet updateKey
  by_cases h : k' = k <;> simp [h] <;> cases v <;> rfl

theorem engineGet_deleteKey (e : Engine) (k k' : String) :
    engineGet (deleteKey e k) k' = if k' = k then none else engineGet e k' := by
  unfold engineGet deleteKey
  by_cases h : k' = k <;> simp [h]

theorem smembers_updateKey (e : Engine) (k : String) (v : RVal) (k' : String) :
    smembers (updateKey e k v) k' =
      if k' = k then (match v with | .set l => l | .str _ => []) else smembers e k' := by
  unfold smembers updateKey
  by_cases h : k' = k <;> simp [h] <;> cases v <;> rfl

theorem smembers_deleteKey (e : Engine) (k k' : String) :
    smembers (deleteKey e k) k' = if k' = k then [] else smembers e k' := by
  unfold smembers deleteKey
  by_cases h : k' = k <;> simp [h]

theorem engineGet_engineUpsert_ne (e : Engine) (k : String) (d : Record) (k' : String)
    (h : k' ≠ k) : engineGet (engineUpsert e k d) k' = engineGet e k' := by
  unfold engineUpsert
  rw [engineGet_updateKey]
  simp [h]

theorem engineGet_engineUpsert_self (e : Engine) (k : String) (d : Record) :
    engineGet (engineUpsert e k d) k = some (assign ((engineGet e k).getD []) d) := by
  unfold engineUpsert
  rw [engineGet_updateKey]
  simp

theorem smembers_engineUpsert (e : Engine) (k : String) (d : Record) (k' : String)
    (h : k' ≠ k) : smembers (engineUpsert e k d) k' = smembers e k' := by
  unfold engineUpsert
  rw [smembers_updateKey]
  simp [h]

theorem smembers_sadd_ne (e : Engine) (k : String) (ids : List String) (k' : String)
    (h : k' ≠ k) : smembers (sadd e k ids) k' = smembers e k' := by
  unfold sadd
  rw [smembers_updateKey]
  simp [h]

theorem engineGet_sadd (e : Engine) (k : String) (ids : List String) (k' : String)
    (h : k' ≠ k) : engineGet (sadd e k ids) k' = engineGet e k' := by
  unfold sadd
  rw [engineGet_updateKey]
  simp [h]

theorem engineGet_srem (e : Engine) (k i : String) (k' : String)
    (h : k' ≠ k) : engineGet (srem e k i) k' = engineGet e k' := by
  unfold srem
  rw [engineGet_updateKey]
  simp [h]

theorem smembers_srem_self (e : Engine) (k i : String) :
    smembers (srem e k i) k = (smembers e k).filter (fun x => x ≠ i) := by
  unfold srem
  rw [smembers_updateKey]
  simp

theorem smembers_srem_ne (e : Engine) (k i : String) (k' : String) (h : k' ≠ k) :
    smembers (srem e k i) k' = smembers e k' := by
  unfold srem
  rw [smembers_updateKey]
  simp [h]

theorem mem_foldl_addDistinct (ids : List String) (acc : List String) (x : String) :
    x ∈ ids.foldl (fun acc i => if i ∈ acc then acc else acc ++ [i]) acc ↔
      x ∈ acc ∨ x ∈ ids := by
  induction ids generalizing acc with
  | nil => simp
  | cons i rest ih =>
      simp only [List.foldl_cons]
      rw [ih]
      by_cases h : i ∈ acc
      · simp only [if_pos h, List.mem_cons]
        constructor
        · rintro (hx | hx)
          · exact Or.inl hx
          · exact Or.inr (Or.inr hx)
        · rintro (hx | rfl | hx)
          · exact Or.inl hx
          · exact Or.inl h
          · exact Or.inr hx
      · simp only [if_neg h, List.mem_append, List.mem_singleton, List.mem_cons]
        tauto

theorem mem_smembers_sadd_self (e : Engine) (k : String) (ids : List String) (x : String) :
    x ∈ smembers (sadd e k ids) k ↔ x ∈ smembers e k ∨ x ∈ ids := by
  unfold sadd
  rw [smembers_updateKey]
  simp only [if_pos rfl]
  exact mem_foldl_addDistinct ids (smembers e k) x

-- String-key disjointness helpers

theorem append_ne_of_take_ne (p₁ p₂ x y : String) (n : Nat)
    (h₁ : n ≤ p₁.data.length) (h₂ : n ≤ p₂.data.length)
    (h : p₁.data.take n ≠ p₂.data.take n) : p₁ ++ x ≠ p₂ ++ y := by
  intro he
  apply h
  have hd : p₁.data ++ x.data = p₂.data ++ y.data := by
    simpa [String.data_append] using congrArg String.data he
  calc p₁.data.take n = (p₁.data ++ x.data).take n :=
        (List.take_append_of_le_length h₁).symm
    _ = (p₂.data ++ y.data).take n := by rw [hd]
    _ = p₂.data.take n := List.take_append_of_le_length h₂

theorem append_ne_self_of_ne_empty (a b : String) (h : b ≠ "") : a ++ b ≠ a := by
  intro he
  apply h
  have hd : a.data ++ b.data = a.data ++ [] := by
    simpa [String.data_append] using congrArg String.data he
  exact String.ext (List.append_cancel_left hd)

theorem append_right_inj (s a b : String) (h : s ++ a = s ++ b) : a = b := by
  have hd : s.data ++ a.data = s.data ++ b.data := by
    simpa [String.data_append] using congrArg String.data h
  exact String.ext (List.append_cancel_left hd)

-- Association-list and record lemmas

theorem alistGet_alistSet_self {α : Type} (l : List (String × α)) (k : String) (v : α) :
    alistGet (alistSet l k v) k = some v := by
  induction l with
  | nil => simp [alistGet, alistSet]
  | cons p r ih =>
      by_cases h : p.1 = k
      · simp [alistGet, alistSet, h]
      · simp [alistGet, alistSet, h, ih]

theorem alistGet_alistSet_ne {α : Type} (l : List (String × α)) (k : String) (v : α)
    (k' : String) (h : k' ≠ k) : alistGet (alistSet l k v) k' = alistGet l k' := by
  induction l with
  | nil =>
      simp only [alistSet, alistGet]
      rw [if_neg (fun he : k = k' => h he.symm)]
  | cons p r ih =>
      by_cases hp : p.1 = k
      · simp only [alistSet, if_pos hp, alistGet]
        rw [if_neg (fun he : k = k' => h he.symm), if_neg (fun he : p.1 = k' => h (he ▸ hp))]
      · simp only [alistSet, if_neg hp, alistGet]
        by_cases hp' : p.1 = k'
        · simp only [if_pos hp']
        · simp only [if_neg hp', ih]

theorem alistGet_eq_none_iff {α : Type} (l : List (String × α)) (k : String) :
    alistGet l k = none ↔ k ∉ alistKeys l := by
  induction l with
  | nil => simp [alistGet, alistKeys]
  | cons p r ih =>
      by_cases h : p.1 = k
      · simp [alistGet, alistKeys, h]
      · simp [alistGet, alistKeys, h, ih, Ne.symm h]

theorem mem_alistKeys_alistSet {α : Type} (l : List (String × α)) (k : String) (v : α)
    (x : String) : x ∈ alistKeys (alistSet l k v) ↔ x ∈ alistKeys l ∨ x = k := by
  induction l with
  | nil => simp [alistSet, alistKeys]
  | cons p r ih =>
      by_cases h : p.1 = k
      · simp only [alistSet, if_pos h, alistKeys, List.map_cons, List.mem_cons]
        constructor
        · rintro (rfl | hx)
          · exact Or.inr rfl
          · exact Or.inl (Or.inr hx)
        · rintro ((hx | hx) | rfl)
          · exact Or.inl (h ▸ hx)
          · exact Or.inr hx
          · exact Or.inl rfl
      · simp only [alistSet, if_neg h, alistKeys, List.map_cons, List.mem_cons]
        rw [show (List.map Prod.fst (alistSet r k v)) = alistKeys (alistSet r k v) from rfl, ih]
        show _ ∨ _ ∨ _ ↔ _
        rw [show (x ∈ List.map Prod.fst r) = (x ∈ alistKeys r) from rfl]
        tauto

theorem nodup_alistKeys_alistSet {α : Type} (l : List (String × α)) (k : String) (v : α)
    (h : (alistKeys l).Nodup) : (alistKeys (alistSet l k v)).Nodup := by
  induction l with
  | nil => simp [alistSet, alistKeys]
  | cons p r ih =>
      by_cases hp : p.1 = k
      · simp only [alistKeys, List.map_cons, List.nodup_cons] at h
        simp only [alistSet, if_pos hp, alistKeys, List.map_cons, List.nodup_cons]
        exact ⟨hp ▸ h.1, h.2⟩
      · simp only [alistKeys, List.map_cons, List.nodup_cons] at h
        simp only [alistSet, if_neg hp, alistKeys, List.map_cons, List.nodup_cons]
        refine ⟨fun hc => ?_, ih h.2⟩
        rw [show (List.map Prod.fst (alistSet r k v)) = alistKeys (alistSet r k v) from rfl,
          mem_alistKeys_alistSet] at hc
        rcases hc with hc | hc
        · exact h.1 hc
        · exact hp hc

theorem alistGet_append_left {α : Type} (l₁ l₂ : List (String × α)) (k : String)
    (h : alistGet l₁ k = none) : alistGet (l₁ ++ l₂) k = alistGet l₂ k := by
  induction l₁ with
  | nil => simp
  | cons p r ih =>
      by_cases hp : p.1 = k
      · simp [alistGet, hp] at h
      · show (if p.1 = k then some p.2 else alistGet (r ++ l₂) k) = alistGet l₂ k
        rw [if_neg hp]
        simp only [alistGet, if_neg hp] at h
        exact ih h

theorem alistSet_append_right {α : Type} (l₁ l₂ : List (String × α)) (k : String) (v : α)
    (h : alistGet l₁ k = none) : alistSet (l₁ ++ l₂) k v = l₁ ++ alistSet l₂ k v := by
  induction l₁ with
  | nil => simp
  | cons p r ih =>
      by_cases hp : p.1 = k
      · simp [alistGet, hp] at h
      · simp only [alistGet, if_neg hp] at h
        simp only [List.cons_append, alistSet, if_neg hp, List.cons.injEq, true_and]
        exact ih h

theorem countP_eq_zero_of_alistGet_none {α : Type} (l : List (String × α)) (k : String)
    (h : alistGet l k = none) : l.countP (fun p => p.1 = k) = 0 := by
  rw [List.countP_eq_zero]
  intro p hp hk
  rw [alistGet_eq_none_iff] at h
  apply h
  show k ∈ List.map Prod.fst l
  exact List.mem_map.mpr ⟨p, hp, by simpa using hk⟩

theorem recGet_recDelete_ne (r : Record) (k k' : String) (h : k' ≠ k) :
    recGet (recDelete r k) k' = recGet r k' := by
  induction r with
  | nil => rfl
  | cons p rest ih =>
      by_cases hp : p.1 = k
      · have hne : ¬ p.1 = k' := fun he => h (he ▸ hp)
        show recGet (if p.1 = k then recDelete rest k else p :: recDelete rest k) k' = _
        rw [if_pos hp, ih]
        show recGet rest k' = alistGet (p :: rest) k'
        simp only [recGet, alistGet, if_neg hne]
      · show recGet (if p.1 = k then recDelete rest k else p :: recDelete rest k) k' = _
        rw [if_neg hp]
        by_cases hp' : p.1 = k'
        · simp only [recGet, alistGet, if_pos hp']
        · simp only [recGet, alistGet, if_neg hp'] at ih ⊢
          exact ih

theorem alistKeys_recDelete_sublist (r : Record) (k : String) :
    (alistKeys (recDelete r k)).Sublist (alistKeys r) := by
  induction r with
  | nil => simp [recDelete, alistKeys]
  | cons p rest ih =>
      by_cases hp : p.1 = k
      · show (alistKeys (if p.1 = k then recDelete rest k else p :: recDelete rest k)).Sublist _
        rw [if_pos hp]
        exact ih.trans (List.sublist_cons_self _ _)
      · show (alistKeys (if p.1 = k then recDelete rest k else p :: recDelete rest k)).Sublist _
        rw [if_neg hp]
        exact ih.cons₂ _

theorem nodup_alistKeys_recDelete (r : Record) (k : String)
    (h : (alistKeys r).Nodup) : (alistKeys (recDelete r k)).Nodup :=
  (alistKeys_recDelete_sublist r k).nodup h

theorem recGet_assign_not_mem (old d : Record) (k : String)
    (h : k ∉ alistKeys d) : recGet (assign old d) k = recGet old k := by
  induction d generalizing old with
  | nil => rfl
  | cons p rest ih =>
      simp only [alistKeys, List.map_cons, List.mem_cons] at h
      push_neg at h
      simp only [assign, List.foldl_cons]
      rw [show (List.foldl (fun acc p => recSet acc p.1 p.2) (recSet old p.1 p.2) rest)
          = assign (recSet old p.1 p.2) rest from rfl]
      rw [ih _ h.2]
      exact alistGet_alistSet_ne old p.1 p.2 k h.1

theorem recGet_assign_of_get (old d : Record) (k : String) (v : FieldVal)
    (hnd : (alistKeys d).Nodup) (h : recGet d k = some v) :
    recGet (assign old d) k = some v := by
  induction d generalizing old with
  | nil => simp [recGet, alistGet] at h
  | cons p rest ih =>
      simp only [alistKeys, List.map_cons, List.nodup_cons] at hnd
      simp only [assign, List.foldl_cons]
      rw [show (List.foldl (fun acc p => recSet acc p.1 p.2) (recSet old p.1 p.2) rest)
          = assign (recSet old p.1 p.2) rest from rfl]
      by_cases hp : p.1 = k
      · have hv : v = p.2 := by
          simp [recGet, alistGet, hp] at h
          exact h.symm
        subst hv
        rw [recGet_assign_not_mem _ _ _ (hp ▸ hnd.1)]
        rw [← hp]
        exact alistGet_alistSet_self old p.1 p.2
      · simp only [recGet, alistGet, if_neg hp] at h
        exact ih _ hnd.2 h

-- Claim theorems

/-- C9: for every inbound event whose kind tag appears (truthy) in the
dispatcher's configured `disabledEvents` map, `EventProcessor.inbound`
returns the event without calling `process`: the storage records, the
indexes and the presence coalescing buffer are all unchanged. -/
theorem c9_inbound_disabled_is_frame (disabledEvents : List String)
    (st : DispatchState) (ev : DispatchEvent) (h : ev.kind ∈ disabledEvents) :
    inbound disabledEvents st ev = (st, ev) := by
  unfold inbound
  rw [if_pos h]

theorem c9_inbound_disabled_is_frame_witness :
    inbound ["GUILD_ROLE_DELETE"] ⟨Engine.empty, []⟩ (.guildRoleDelete "g" "r")
      = (⟨Engine.empty, []⟩, .guildRoleDelete "g" "r") :=
  c9_inbound_disabled_is_frame _ _ _ (by simp [DispatchEvent.kind])

/-- C8: an unbound mutating update on a scope-requiring cache with no scope
available from any source (empty guild id argument, no guild id in the
data) rejects immediately: `MemberCache.update` throws
`Empty guild id for member {id}` and `RoleCache.update` rejects with
`Missing guild id`, in both cases before any index or storage write (the
error result carries no updated storage state). -/
theorem c8_missing_scope_rejects (st₁ st₂ : Engine) (id₁ id₂ : String)
    (d₁ d₂ : Record) (h₁ : recGet d₁ "guild_id" = none)
    (h₂ : recGet d₂ "guild_id" = none) :
    memberCacheUpdate st₁ id₁ "" d₁ = .error ("Empty guild id for member " ++ id₁) ∧
    roleCacheUpdate st₂ id₂ "" d₂ = .error "Missing guild id" :=
  ⟨rfl, rfl⟩

theorem c8_missing_scope_rejects_witness :
    memberCacheUpdate Engine.empty "u" "" [("nick", .s "n")]
        = .error ("Empty guild id for member " ++ "u") ∧
    roleCacheUpdate Engine.empty "r" "" [("name", .s "adm")]
        = .error "Missing guild id" :=
  c8_missing_scope_rejects Engine.empty Engine.empty "u" "r" _ _ rfl rfl

/-- C2 (code bug): the bound branch of `EmojiCache.update` calls
`bindObject(data)` — which keeps `boundObject` set — and then re-invokes
`this.update(id, guildId, data)`, so the call re-enters the bound branch
forever: for every recursion budget the call has not returned, and no
storage mutation (at the bound identity or anywhere else) ever happens,
contradicting the documented bound-instance redirection. -/
theorem c2_bound_update_never_returns (fuel : Nat) (bound : Record) (st : Engine)
    (id guildId : String) (data : Record) :
    emojiCacheUpdateStep fuel (some bound) st id guildId data = none := by
  induction fuel generalizing bound with
  | zero => rfl
  | succ n ih => exact ih data


/-- C1 (code bug): `EventProcessor.process` passes
`(event.d.guild_id, event.d.role_id)` to `RoleCache.remove(id, guildId)`,
whose documented parameters are (role id, guild id) — the arguments are
swapped.  On a state holding role `r` of guild `g` the event therefore
looks up `role.r.g`, finds nothing and is a complete no-op, while the
removal keyed by (role id, guild id) — `RoleCache.remove("r", "g")` — does
delete the record and the index entry. -/
theorem c1_role_delete_keyed_swapped :
    process ⟨roleDeleteDemoState, []⟩ (.guildRoleDelete "g" "r")
        = ⟨roleDeleteDemoState, []⟩ ∧
    engineGet roleDeleteDemoState "role.g.r"
        = some [("id", .s "r"), ("guild_id", .s "g")] ∧
    smembers roleDeleteDemoState "role.g" = ["r"] ∧
    engineGet (roleCacheRemove roleDeleteDemoState "r" "g") "role.g.r" = none ∧
    smembers (roleCacheRemove roleDeleteDemoState "r" "g") "role.g" = [] :=
  ⟨rfl, rfl, rfl, rfl, rfl⟩

-- Further string-key and record helpers

theorem append_right_ne (p : String) {x y : String} (h : x ≠ y) : p ++ x ≠ p ++ y :=
  fun he => h (append_right_inj p x y he)

theorem append_ne_of_longer (a b c : String) (h : c.length < a.length) : a ++ b ≠ c := by
  intro he
  have hl := congrArg String.length he
  rw [String.length_append] at hl
  omega

theorem dot_append_ne_empty (x : String) : ("." ++ x) ≠ "" := by
  intro h
  have hl := congrArg String.length h
  rw [String.length_append] at hl
  have h1 : ("." : String).length = 1 := rfl
  have h0 : ("" : String).length = 0 := rfl
  omega

theorem recGet_recSet_self (r : Record) (k : String) (v : FieldVal) :
    recGet (recSet r k v) k = some v :=
  alistGet_alistSet_self r k v

theorem recGet_recSet_ne (r : Record) (k : String) (v : FieldVal) (k' : String)
    (h : k' ≠ k) : recGet (recSet r k v) k' = recGet r k' :=
  alistGet_alistSet_ne r k v k' h

theorem alistSet_eq_append_of_none {α : Type} (l : List (String × α)) (k : String) (v : α)
    (h : alistGet l k = none) : alistSet l k v = l ++ [(k, v)] := by
  induction l with
  | nil => rfl
  | cons p r ih =>
      by_cases hp : p.1 = k
      · simp [alistGet, hp] at h
      · simp only [alistGet, if_neg hp] at h
        simp only [alistSet, if_neg hp, List.cons_append, List.cons.injEq, true_and]
        exact ih h

-- The record-plus-index removal pattern and its fold lemmas


theorem roleCacheRemove_eq_idxRemove (st : Engine) (id g : String) :
    roleCacheRemove st id g = idxRemove (fun i => roleBuildId i g) ("role." ++ g) st id := rfl

theorem emojiCacheRemove_eq_idxRemove (st : Engine) (id g : String) :
    emojiCacheRemove st id g = idxRemove (fun i => emojiBuildId i g) ("emoji." ++ g) st id := rfl

theorem memberCacheRemove_eq_idxRemove (st : Engine) (id g : String) :
    memberCacheRemove st id g = idxRemove (fun i => memberBuildId i g) ("member." ++ g) st id := rfl

theorem channelCacheRemove_eq_idxRemove (st : Engine) (id : String) :
    channelCacheRemove st id = idxRemove (fun i => "channel." ++ i) "channel" st id := rfl

theorem idxRemove_engineGet_ne (bid : String → String) (idx : String) (s : Engine)
    (i k : String) (h1 : k ≠ bid i) (h2 : k ≠ idx) :
    engineGet (idxRemove bid idx s i) k = engineGet s k := by
  unfold idxRemove
  cases engineGet s (bid i) with
  | none => rfl
  | some r =>
      rw [engineGet_deleteKey, if_neg h1, engineGet_srem _ _ _ _ h2]

theorem idxRemove_smembers_ne (bid : String → String) (idx : String) (s : Engine)
    (i k : String) (h1 : k ≠ bid i) (h2 : k ≠ idx) :
    smembers (idxRemove bid idx s i) k = smembers s k := by
  unfold idxRemove
  cases engineGet s (bid i) with
  | none => rfl
  | some r =>
      rw [smembers_deleteKey, if_neg h1, smembers_srem_ne _ _ _ _ h2]

theorem idxRemove_engineGet_none (bid : String → String) (idx : String) (s : Engine)
    (i k : String) (h2 : k ≠ idx) (h : engineGet s k = none) :
    engineGet (idxRemove bid idx s i) k = none := by
  unfold idxRemove
  cases hm : engineGet s (bid i) with
  | none => exact h
  | some r =>
      rw [engineGet_deleteKey]
      by_cases hk : k = bid i
      · rw [if_pos hk]
      · rw [if_neg hk, engineGet_srem _ _ _ _ h2]
        exact h

theorem foldl_idxRemove_engineGet (bid : String → String) (idx : String)
    (l : List String) (s : Engine) (k : String)
    (h1 : ∀ i ∈ l, k ≠ bid i) (h2 : k ≠ idx) :
    engineGet (l.foldl (idxRemove bid idx) s) k = engineGet s k := by
  induction l generalizing s with
  | nil => rfl
  | cons i rest ih =>
      simp only [List.foldl_cons]
      rw [ih _ (fun j hj => h1 j (List.mem_cons_of_mem i hj)),
        idxRemove_engineGet_ne _ _ _ _ _ (h1 i (List.mem_cons_self i rest)) h2]

theorem foldl_idxRemove_smembers (bid : String → String) (idx : String)
    (l : List String) (s : Engine) (k : String)
    (h1 : ∀ i ∈ l, k ≠ bid i) (h2 : k ≠ idx) :
    smembers (l.foldl (idxRemove bid idx) s) k = smembers s k := by
  induction l generalizing s with
  | nil => rfl
  | cons i rest ih =>
      simp only [List.foldl_cons]
      rw [ih _ (fun j hj => h1 j (List.mem_cons_of_mem i hj)),
        idxRemove_smembers_ne _ _ _ _ _ (h1 i (List.mem_cons_self i rest)) h2]

theorem foldl_idxRemove_none (bid : String → String) (idx : String)
    (l : List String) (s : Engine) (k : String)
    (h2 : k ≠ idx) (h : engineGet s k = none) :
    engineGet (l.foldl (idxRemove bid idx) s) k = none := by
  induction l generalizing s with
  | nil => exact h
  | cons i rest ih =>
      simp only [List.foldl_cons]
      exact ih _ (idxRemove_engineGet_none _ _ _ _ _ h2 h)

theorem foldl_idxRemove_bid_none (bid : String → String) (idx : String)
    (hne : ∀ a, bid a ≠ idx) (l : List String) (s : Engine) :
    ∀ x ∈ l, engineGet (l.foldl (idxRemove bid idx) s) (bid x) = none := by
  induction l generalizing s with
  | nil => intro x hx; exact absurd hx (List.not_mem_nil x)
  | cons i rest ih =>
      intro x hx
      simp only [List.foldl_cons]
      rcases List.mem_cons.mp hx with rfl | hx'
      · apply foldl_idxRemove_none _ _ _ _ _ (hne x)
        unfold idxRemove
        cases hm : engineGet s (bid x) with
        | none => exact hm
        | some r => rw [engineGet_deleteKey, if_pos rfl]
      · exact ih _ x hx'

theorem foldl_idxRemove_empty (bid : String → String) (idx : String)
    (hinj : ∀ a b, bid a = bid b → a = b) (hne : ∀ a, bid a ≠ idx)
    (l : List String) (s : Engine)
    (hsub : ∀ x ∈ smembers s idx, x ∈ l)
    (hrec : ∀ x ∈ smembers s idx, (engineGet s (bid x)).isSome) :
    smembers (l.foldl (idxRemove bid idx) s) idx = [] := by
  induction l generalizing s with
  | nil =>
      simp only [List.foldl_nil]
      exact List.eq_nil_iff_forall_not_mem.mpr
        (fun x hx => List.not_mem_nil x (hsub x hx))
  | cons i rest ih =>
      simp only [List.foldl_cons]
      cases hm : engineGet s (bid i) with
      | some r =>
          have hstep : idxRemove bid idx s i = deleteKey (srem s idx i) (bid i) := by
            unfold idxRemove
            rw [hm]
          have hsm : smembers (idxRemove bid idx s i) idx
              = (smembers s idx).filter (fun x => x ≠ i) := by
            rw [hstep, smembers_deleteKey, if_neg (fun he : idx = bid i => hne i he.symm),
              smembers_srem_self]
          apply ih
          · intro x hx
            rw [hsm] at hx
            simp only [List.mem_filter, decide_eq_true_eq] at hx
            rcases List.mem_cons.mp (hsub x hx.1) with rfl | h'
            · exact absurd rfl hx.2
            · exact h'
          · intro x hx
            rw [hsm] at hx
            simp only [List.mem_filter, decide_eq_true_eq] at hx
            have hget : engineGet (idxRemove bid idx s i) (bid x) = engineGet s (bid x) := by
              rw [hstep, engineGet_deleteKey,
                if_neg (fun he => hx.2 (hinj x i he)), engineGet_srem _ _ _ _ (hne x)]
            rw [hget]
            exact hrec x hx.1
      | none =>
          have hstep : idxRemove bid idx s i = s := by
            unfold idxRemove
            rw [hm]
          rw [hstep]
          apply ih
          · intro x hx
            rcases List.mem_cons.mp (hsub x hx) with rfl | h'
            · exact absurd (hrec x hx) (by rw [hm]; simp)
            · exact h'
          · exact hrec

-- Key-builder facts and cache-operation reduction lemmas

theorem emojiBuildId_ne_idx (id g : String) (hg : g ≠ "") :
    emojiBuildId id g ≠ "emoji." ++ g := by
  unfold emojiBuildId
  rw [if_neg hg]
  exact append_right_ne "emoji." (append_ne_self_of_ne_empty g ("." ++ id) (dot_append_ne_empty id))

theorem roleBuildId_ne_idx (id g : String) (hg : g ≠ "") :
    roleBuildId id g ≠ "role." ++ g := by
  unfold roleBuildId
  rw [if_neg hg]
  exact append_right_ne "role." (append_ne_self_of_ne_empty g ("." ++ id) (dot_append_ne_empty id))

theorem memberBuildId_ne_idx (id g : String) (hg : g ≠ "") :
    memberBuildId id g ≠ "member." ++ g := by
  unfold memberBuildId
  rw [if_neg hg]
  exact append_right_ne "member." (append_ne_self_of_ne_empty g ("." ++ id) (dot_append_ne_empty id))

theorem permOverwriteBuildId_ne_idx (id ch : String) (hch : ch ≠ "") :
    permOverwriteBuildId id ch ≠ "permissionoverwrite." ++ ch := by
  unfold permOverwriteBuildId
  rw [if_neg hch]
  exact append_right_ne "permissionoverwrite."
    (append_ne_self_of_ne_empty ch ("." ++ id) (dot_append_ne_empty id))

theorem emojiBuildId_inj (g : String) (hg : g ≠ "") (a b : String)
    (h : emojiBuildId a g = emojiBuildId b g) : a = b := by
  unfold emojiBuildId at h
  rw [if_neg hg, if_neg hg] at h
  exact append_right_inj _ _ _ (append_right_inj _ _ _ (append_right_inj _ _ _ h))

theorem roleBuildId_inj (g : String) (hg : g ≠ "") (a b : String)
    (h : roleBuildId a g = roleBuildId b g) : a = b := by
  unfold roleBuildId at h
  rw [if_neg hg, if_neg hg] at h
  exact append_right_inj _ _ _ (append_right_inj _ _ _ (append_right_inj _ _ _ h))

theorem memberBuildId_inj (g : String) (hg : g ≠ "") (a b : String)
    (h : memberBuildId a g = memberBuildId b g) : a = b := by
  unfold memberBuildId at h
  rw [if_neg hg, if_neg hg] at h
  exact append_right_inj _ _ _ (append_right_inj _ _ _ (append_right_inj _ _ _ h))

theorem channelKey_ne_idx (id : String) : "channel." ++ id ≠ "channel" := by
  apply append_ne_of_longer
  have h1 : ("channel" : String).length = 7 := rfl
  have h2 : ("channel." : String).length = 8 := rfl
  omega

theorem guildKey_ne_idx (id : String) : "guild." ++ id ≠ "guild" := by
  apply append_ne_of_longer
  have h1 : ("guild" : String).length = 5 := rfl
  have h2 : ("guild." : String).length = 6 := rfl
  omega

theorem mem_idx_after_upsert_sadd (st : Engine) (idx key id : String) (d : Record)
    (hne : key ≠ idx) : id ∈ smembers (engineUpsert (sadd st idx [id]) key d) idx := by
  rw [smembers_engineUpsert _ _ _ _ (Ne.symm hne)]
  exact (mem_smembers_sadd_self _ _ _ _).mpr (Or.inr (List.mem_singleton.mpr rfl))

theorem not_mem_idx_after_remove (st : Engine) (idx key id : String) (hne : key ≠ idx) :
    id ∉ smembers (deleteKey (srem st idx id) key) idx := by
  rw [smembers_deleteKey, if_neg (fun he : idx = key => hne he.symm), smembers_srem_self]
  simp

theorem memberCacheUpdate_eq_ok (st : Engine) (id g : String) (data : Record)
    (hg : g ≠ "") :
    memberCacheUpdate st id g data =
      .ok (engineUpsert
        (sadd (memberUserStep st (memberDefaulted data id g)).1 ("member." ++ g) [id])
        (memberBuildId id g) (memberUserStep st (memberDefaulted data id g)).2) := by
  unfold memberCacheUpdate memberDefaulted
  rw [if_neg hg]


/-- C10: an unbound `MemberCache.update(id, guildId, data)` with a
non-empty guild id writes a member record whose `id` and `guild_id` fields
are populated from the arguments when `data` lacks them. -/
theorem c10_member_update_populates_ids (st : Engine) (id g : String)
    (data : Record) (hg : g ≠ "") (hnd : (alistKeys data).Nodup)
    (hid : recGet data "id" = none) (hgid : recGet data "guild_id" = none) :
    ∃ st' stored, memberCacheUpdate st id g data = .ok st' ∧
      memberCacheGet st' id g = some stored ∧
      recGet stored "id" = some (.s id) ∧
      recGet stored "guild_id" = some (.s g) := by
  have c1 : ¬ (truthy (recGet data "guild_id") = true) := by rw [hgid]; decide
  have hid1 : recGet (recSet data "guild_id" (.s g)) "id" = none := by
    rw [recGet_recSet_ne _ _ _ _ (by decide)]
    exact hid
  have c2 : ¬ (truthy (recGet (recSet data "guild_id" (.s g)) "id") = true) := by
    rw [hid1]; decide
  have hdef : memberDefaulted data id g
      = recSet (recSet data "guild_id" (.s g)) "id" (.s id) := by
    unfold memberDefaulted
    rw [if_neg c1, if_neg c2]
  have hdid : recGet (memberDefaulted data id g) "id" = some (.s id) := by
    rw [hdef]
    exact recGet_recSet_self _ _ _
  have hdgid : recGet (memberDefaulted data id g) "guild_id" = some (.s g) := by
    rw [hdef, recGet_recSet_ne _ _ _ _ (by decide)]
    exact recGet_recSet_self _ _ _
  have hdnd : (alistKeys (memberDefaulted data id g)).Nodup := by
    rw [hdef]
    exact nodup_alistKeys_alistSet _ _ _ (nodup_alistKeys_alistSet _ _ _ hnd)
  have hstep : recGet (memberUserStep st (memberDefaulted data id g)).2 "id" = some (.s id) ∧
      recGet (memberUserStep st (memberDefaulted data id g)).2 "guild_id" = some (.s g) ∧
      (alistKeys (memberUserStep st (memberDefaulted data id g)).2).Nodup := by
    unfold memberUserStep
    cases hu : recGet (memberDefaulted data id g) "user" with
    | none => exact ⟨hdid, hdgid, hdnd⟩
    | some fv =>
        cases fv with
        | o u =>
            refine ⟨?_, ?_, ?_⟩
            · rw [recGet_recDelete_ne _ _ _ (by decide)]
              exact hdid
            · rw [recGet_recDelete_ne _ _ _ (by decide)]
              exact hdgid
            · exact nodup_alistKeys_recDelete _ _ hdnd
        | s v => exact ⟨hdid, hdgid, hdnd⟩
        | b v => exact ⟨hdid, hdgid, hdnd⟩
        | null => exact ⟨hdid, hdgid, hdnd⟩
        | arr v => exact ⟨hdid, hdgid, hdnd⟩
  refine ⟨_,
    assign ((engineGet (sadd (memberUserStep st (memberDefaulted data id g)).1
        ("member." ++ g) [id]) (memberBuildId id g)).getD [])
      (memberUserStep st (memberDefaulted data id g)).2,
    memberCacheUpdate_eq_ok st id g data hg, ?_, ?_, ?_⟩
  · exact engineGet_engineUpsert_self _ _ _
  · exact recGet_assign_of_get _ _ _ _ hstep.2.2 hstep.1
  · exact recGet_assign_of_get _ _ _ _ hstep.2.2 hstep.2.1

theorem c10_member_update_populates_ids_witness :
    ∃ st' stored, memberCacheUpdate Engine.empty "u" "g" [("nick", .s "n")] = .ok st' ∧
      memberCacheGet st' "u" "g" = some stored ∧
      recGet stored "id" = some (.s "u") ∧
      recGet stored "guild_id" = some (.s "g") :=
  c10_member_update_populates_ids Engine.empty "u" "g" [("nick", .s "n")]
    (by decide) (by decide) rfl rfl

/-- C5 counterexample: `update(id, scope, data)` followed by
`get(id, scope)` does not always return a superset of `data`'s fields —
`MemberCache.update` extracts and strips the embedded `user` object before
storing, so the stored record lacks the `user` field the data carried. -/
theorem c5_round_trip_counterexample :
    recGet c5Data "user" = some (.o [("id", .s "u")]) ∧
    (memberCacheUpdate Engine.empty "u" "g" c5Data).map
        (fun st' => (memberCacheGet st' "u" "g").map (fun r => recGet r "user"))
      = .ok (some none) :=
  ⟨rfl, rfl⟩

theorem except_bind_ok {ε α β : Type} (m : Except ε α) (f : α → Except ε β) (b : β) :
    (m >>= f) = .ok b ↔ ∃ a, m = .ok a ∧ f a = .ok b := by
  cases m with
  | error e => simp [Bind.bind, Except.bind]
  | ok a => simp [Bind.bind, Except.bind]

theorem roleCacheUpdate_ok_shape (st : Engine) (id g : String) (data : Record)
    (hg : g ≠ "") : ∃ d, roleCacheUpdate st id g data
      = .ok (engineUpsert (sadd st ("role." ++ g) [id]) (roleBuildId id g) d) := by
  unfold roleCacheUpdate
  rw [if_neg hg]
  exact ⟨_, rfl⟩

theorem channelCacheUpdate_shape (st : Engine) (id : String) (data : Record) :
    ∃ s d, channelCacheUpdate st id data
      = engineUpsert (sadd s "channel" [id]) ("channel." ++ id) d := by
  unfold channelCacheUpdate
  exact ⟨_, _, rfl⟩

theorem guildCacheUpdate_ok_shape (st : Engine) (id : String) (data : Record)
    (st' : Engine) (h : guildCacheUpdate st id data = .ok st') :
    ∃ s d, st' = engineUpsert (sadd s "guild" [id]) ("guild." ++ id) d := by
  unfold guildCacheUpdate at h
  simp only [] at h
  cases h1 : guildMembersFanOut (guildChannelsFanOut st id data) id data with
  | error e => rw [h1] at h; cases h
  | ok s1 =>
      rw [h1] at h
      simp only [] at h
      cases h2 : guildPresencesFanOut s1 data with
      | error e => rw [h2] at h; cases h
      | ok s2 =>
          rw [h2] at h
          simp only [] at h
          cases h3 : guildRolesFanOut s2 id data with
          | error e => rw [h3] at h; cases h
          | ok s3 =>
              rw [h3] at h
              simp only [] at h
              cases h
              exact ⟨_, _, rfl⟩

theorem roleCacheUpdate_eq_ok (st : Engine) (id g : String) (data : Record)
    (hg : g ≠ "") :
    roleCacheUpdate st id g data =
      .ok (engineUpsert (sadd st ("role." ++ g) [id]) (roleBuildId id g)
        (memberDefaulted data id g)) := by
  unfold roleCacheUpdate memberDefaulted
  rw [if_neg hg]

theorem channelCacheUpdate_eq (st : Engine) (id : String) (data : Record) :
    ∃ s, channelCacheUpdate st id data
      = engineUpsert (sadd s "channel" [id]) ("channel." ++ id)
          (recDelete (recDelete data "permission_overwrites") "recipients") := by
  unfold channelCacheUpdate
  exact ⟨_, rfl⟩

theorem guildCacheUpdate_eq_of_flat (st : Engine) (id : String) (data : Record)
    (hch : recGet data "channels" = none) (hme : recGet data "members" = none)
    (hpr : recGet data "presences" = none) (hro : recGet data "roles" = none)
    (hem : recGet data "emojis" = none) :
    guildCacheUpdate st id data =
      .ok (engineUpsert (sadd st "guild" [id]) ("guild." ++ id)
        (recDelete (recDelete (recDelete (recDelete (recDelete (recDelete
          (recDelete data "members") "voice_states") "roles") "presences") "emojis")
          "features") "channels")) := by
  have h1 : guildChannelsFanOut st id data = st := by
    unfold guildChannelsFanOut
    rw [hch]
  have h2 : guildMembersFanOut st id data = .ok st := by
    unfold guildMembersFanOut
    rw [hme]
    rfl
  have h3 : guildPresencesFanOut st data = .ok st := by
    unfold guildPresencesFanOut
    rw [hpr]
    rfl
  have h4 : guildRolesFanOut st id data = .ok st := by
    unfold guildRolesFanOut
    rw [hro]
    rfl
  have h5 : guildEmojisFanOut st id data = st := by
    unfold guildEmojisFanOut
    rw [hem]
  unfold guildCacheUpdate
  simp only []
  rw [h1, h2]
  simp only []
  rw [h3]
  simp only []
  rw [h4]
  simp only []
  rw [h5]

/-- C5 amended: for every entity cache in the source that stores a field
record, `update(id, scope, data)` followed by `get(id, scope)` returns an
object whose fields are a superset of `data`'s fields with matching
values, provided `data` carries none of the fields that entity's update
extracts, strips or rewrites before storing: `EmojiCache` and
`PermissionOverwriteCache` store the data untouched, so the property holds
for all data; `RoleCache` overwrites falsy `id`/`guild_id` values (absent
is fine); `MemberCache` does the same and additionally extracts and strips
an embedded `user` object; `ChannelCache` strips `permission_overwrites`
and `recipients`; `GuildCache` strips the embedded
`channels`/`members`/`presences`/`roles`/`emojis`/`voice_states`/`features`
entries.  (The merge itself — `RedisStorageEngine.upsert` — shallow-merges
the new data over the previously stored record.  `ChannelMapCache` stores
a set of channel ids, not a field record, and the `UserCache` and
`PresenceCache` implementations are not in the source tree.) -/
theorem c5_round_trip_amended (st : Engine) (id g : String) (hg : g ≠ "") :
    (∀ d, (alistKeys d).Nodup →
      ∃ stored, emojiCacheGet (emojiCacheUpdate st id g d) id g = some stored ∧
        ∀ k v, recGet d k = some v → recGet stored k = some v) ∧
    (∀ d, (alistKeys d).Nodup →
      ∃ stored, permissionOverwriteCacheGet (permissionOverwriteCacheUpdate st id g d)
          id g = some stored ∧
        ∀ k v, recGet d k = some v → recGet stored k = some v) ∧
    (∀ d, (alistKeys d).Nodup →
      (recGet d "guild_id" = none ∨ truthy (recGet d "guild_id") = true) →
      (recGet d "id" = none ∨ truthy (recGet d "id") = true) →
      ∃ st' stored, roleCacheUpdate st id g d = .ok st' ∧
        roleCacheGet st' id g = some stored ∧
        ∀ k v, recGet d k = some v → recGet stored k = some v) ∧
    (∀ d, (alistKeys d).Nodup → recGet d "user" = none →
      (recGet d "guild_id" = none ∨ truthy (recGet d "guild_id") = true) →
      (recGet d "id" = none ∨ truthy (recGet d "id") = true) →
      ∃ st' stored, memberCacheUpdate st id g d = .ok st' ∧
        memberCacheGet st' id g = some stored ∧
        ∀ k v, recGet d k = some v → recGet stored k = some v) ∧
    (∀ d, (alistKeys d).Nodup →
      recGet d "permission_overwrites" = none → recGet d "recipients" = none →
      ∃ stored, channelCacheGet (channelCacheUpdate st id d) id = some stored ∧
        ∀ k v, recGet d k = some v → recGet stored k = some v) ∧
    (∀ d, (alistKeys d).Nodup →
      recGet d "channels" = none → recGet d "members" = none →
      recGet d "presences" = none → recGet d "roles" = none →
      recGet d "emojis" = none → recGet d "voice_states" = none →
      recGet d "features" = none →
      ∃ st' stored, guildCacheUpdate st id d = .ok st' ∧
        guildCacheGet st' id = some stored ∧
        ∀ k v, recGet d k = some v → recGet stored k = some v) := by
  have hkeep : ∀ (d d' : Record), (alistKeys d').Nodup →
      (∀ k v, recGet d k = some v → recGet d' k = some v) →
      ∀ (S : Engine) (key : String),
      ∃ stored, engineGet (engineUpsert S key d') key = some stored ∧
        ∀ k v, recGet d k = some v → recGet stored k = some v := by
    intro d d' hnd' hpres S key
    exact ⟨assign ((engineGet S key).getD []) d', engineGet_engineUpsert_self _ _ _,
      fun k v hkv => recGet_assign_of_get _ _ _ _ hnd' (hpres k v hkv)⟩
  have hdefault : ∀ d, (alistKeys d).Nodup →
      (recGet d "guild_id" = none ∨ truthy (recGet d "guild_id") = true) →
      (recGet d "id" = none ∨ truthy (recGet d "id") = true) →
      (∀ k v, recGet d k = some v → recGet (memberDefaulted d id g) k = some v) ∧
      (alistKeys (memberDefaulted d id g)).Nodup ∧
      (recGet d "user" = none → recGet (memberDefaulted d id g) "user" = none) := by
    intro data hnd hgid hid
    set D1 := if truthy (recGet data "guild_id") then data
              else recSet data "guild_id" (.s g) with hD1
    have hpres1 : ∀ k v, recGet data k = some v → recGet D1 k = some v := by
      intro k v hkv
      rw [hD1]
      by_cases t1 : truthy (recGet data "guild_id") = true
      · rw [if_pos t1]
        exact hkv
      · rw [if_neg t1]
        rcases hgid with hnone | htr
        · by_cases hk : k = "guild_id"
          · subst hk
            rw [hnone] at hkv
            cases hkv
          · rw [recGet_recSet_ne _ _ _ _ hk]
            exact hkv
        · exact absurd htr t1
    have hnd1 : (alistKeys D1).Nodup := by
      rw [hD1]
      by_cases t1 : truthy (recGet data "guild_id") = true
      · rw [if_pos t1]
        exact hnd
      · rw [if_neg t1]
        exact nodup_alistKeys_alistSet _ _ _ hnd
    have hid1 : recGet D1 "id" = none ∨ truthy (recGet D1 "id") = true := by
      rw [hD1]
      by_cases t1 : truthy (recGet data "guild_id") = true
      · rw [if_pos t1]
        exact hid
      · rw [if_neg t1, recGet_recSet_ne _ _ _ _ (by decide)]
        exact hid
    have hu1 : recGet data "user" = none → recGet D1 "user" = none := by
      intro hu
      rw [hD1]
      by_cases t1 : truthy (recGet data "guild_id") = true
      · rw [if_pos t1]
        exact hu
      · rw [if_neg t1, recGet_recSet_ne _ _ _ _ (by decide)]
        exact hu
    have hdef : ∀ k v, recGet data k = some v →
        recGet (memberDefaulted data id g) k = some v := by
      intro k v hkv
      unfold memberDefaulted
      rw [← hD1]
      by_cases t2 : truthy (recGet D1 "id") = true
      · rw [if_pos t2]
        exact hpres1 k v hkv
      · rw [if_neg t2]
        rcases hid1 with hnone | htr
        · by_cases hk : k = "id"
          · subst hk
            have hs := hpres1 "id" v hkv
            rw [hnone] at hs
            cases hs
          · rw [recGet_recSet_ne _ _ _ _ hk]
            exact hpres1 k v hkv
        · exact absurd htr t2
    have hnd2 : (alistKeys (memberDefaulted data id g)).Nodup := by
      unfold memberDefaulted
      rw [← hD1]
      by_cases t2 : truthy (recGet D1 "id") = true
      · rw [if_pos t2]
        exact hnd1
      · rw [if_neg t2]
        exact nodup_alistKeys_alistSet _ _ _ hnd1
    have hu2 : recGet data "user" = none →
        recGet (memberDefaulted data id g) "user" = none := by
      intro hu
      unfold memberDefaulted
      rw [← hD1]
      by_cases t2 : truthy (recGet D1 "id") = true
      · rw [if_pos t2]
        exact hu1 hu
      · rw [if_neg t2, recGet_recSet_ne _ _ _ _ (by decide)]
        exact hu1 hu
    exact ⟨hdef, hnd2, hu2⟩
  refine ⟨?_, ?_, ?_, ?_, ?_, ?_⟩
  · intro d hnd
    exact hkeep d d hnd (fun _ _ h => h) (sadd st ("emoji." ++ g) [id]) (emojiBuildId id g)
  · intro d hnd
    exact hkeep d d hnd (fun _ _ h => h) (sadd st ("permissionoverwrite." ++ g) [id])
      (permOverwriteBuildId id g)
  · intro d hnd hgid hid
    obtain ⟨hpres, hnd', _⟩ := hdefault d hnd hgid hid
    obtain ⟨stored, hget, hsup⟩ := hkeep d (memberDefaulted d id g) hnd' hpres
      (sadd st ("role." ++ g) [id]) (roleBuildId id g)
    exact ⟨_, stored, roleCacheUpdate_eq_ok st id g d hg, hget, hsup⟩
  · intro d hnd hu hgid hid
    obtain ⟨hpres, hnd', huser⟩ := hdefault d hnd hgid hid
    have hstep : memberUserStep st (memberDefaulted d id g)
        = (st, memberDefaulted d id g) := by
      unfold memberUserStep
      rw [huser hu]
    have hrun : memberCacheUpdate st id g d
        = .ok (engineUpsert (sadd st ("member." ++ g) [id]) (memberBuildId id g)
            (memberDefaulted d id g)) := by
      rw [memberCacheUpdate_eq_ok st id g d hg, hstep]
    obtain ⟨stored, hget, hsup⟩ := hkeep d (memberDefaulted d id g) hnd' hpres
      (sadd st ("member." ++ g) [id]) (memberBuildId id g)
    exact ⟨_, stored, hrun, hget, hsup⟩
  · intro d hnd hpo hrcp
    obtain ⟨s, hs⟩ := channelCacheUpdate_eq st id d
    rw [hs]
    have hpres : ∀ k v, recGet d k = some v →
        recGet (recDelete (recDelete d "permission_overwrites") "recipients") k
          = some v := by
      intro k v hkv
      by_cases hk1 : k = "recipients"
      · subst hk1
        rw [hrcp] at hkv
        cases hkv
      by_cases hk2 : k = "permission_overwrites"
      · subst hk2
        rw [hpo] at hkv
        cases hkv
      rw [recGet_recDelete_ne _ _ _ hk1, recGet_recDelete_ne _ _ _ hk2]
      exact hkv
    have hnd' := nodup_alistKeys_recDelete _ "recipients"
      (nodup_alistKeys_recDelete _ "permission_overwrites" hnd)
    exact hkeep d _ hnd' hpres s ("channel." ++ id)
  · intro d hnd hch hme hpr hro hem hvs hfe
    have hrun := guildCacheUpdate_eq_of_flat st id d hch hme hpr hro hem
    have hpres : ∀ k v, recGet d k = some v →
        recGet (recDelete (recDelete (recDelete (recDelete (recDelete (recDelete
          (recDelete d "members") "voice_states") "roles") "presences") "emojis")
          "features") "channels") k = some v := by
      intro k v hkv
      by_cases h1 : k = "channels"
      · subst h1
        rw [hch] at hkv
        cases hkv
      by_cases h2 : k = "features"
      · subst h2
        rw [hfe] at hkv
        cases hkv
      by_cases h3 : k = "emojis"
      · subst h3
        rw [hem] at hkv
        cases hkv
      by_cases h4 : k = "presences"
      · subst h4
        rw [hpr] at hkv
        cases hkv
      by_cases h5 : k = "roles"
      · subst h5
        rw [hro] at hkv
        cases hkv
      by_cases h6 : k = "voice_states"
      · subst h6
        rw [hvs] at hkv
        cases hkv
      by_cases h7 : k = "members"
      · subst h7
        rw [hme] at hkv
        cases hkv
      rw [recGet_recDelete_ne _ _ _ h1, recGet_recDelete_ne _ _ _ h2,
        recGet_recDelete_ne _ _ _ h3, recGet_recDelete_ne _ _ _ h4,
        recGet_recDelete_ne _ _ _ h5, recGet_recDelete_ne _ _ _ h6,
        recGet_recDelete_ne _ _ _ h7]
      exact hkv
    have hnd' := nodup_alistKeys_recDelete _ "channels"
      (nodup_alistKeys_recDelete _ "features"
        (nodup_alistKeys_recDelete _ "emojis"
          (nodup_alistKeys_recDelete _ "presences"
            (nodup_alistKeys_recDelete _ "roles"
              (nodup_alistKeys_recDelete _ "voice_states"
                (nodup_alistKeys_recDelete _ "members" hnd))))))
    obtain ⟨stored, hget, hsup⟩ := hkeep d _ hnd' hpres (sadd st "guild" [id])
      ("guild." ++ id)
    exact ⟨_, stored, hrun, hget, hsup⟩

theorem c5_round_trip_amended_witness :
    (∃ stored, emojiCacheGet (emojiCacheUpdate Engine.empty "e" "g"
        [("name", .s "x"), ("user", .o [("id", .s "u")])]) "e" "g" = some stored ∧
      ∀ k v, recGet [("name", .s "x"), ("user", .o [("id", .s "u")])] k = some v →
        recGet stored k = some v) ∧
    (∃ st' stored, memberCacheUpdate Engine.empty "e" "g" [("nick", .s "n")] = .ok st' ∧
      memberCacheGet st' "e" "g" = some stored ∧
      ∀ k v, recGet [("nick", .s "n")] k = some v → recGet stored k = some v) :=
  let h := c5_round_trip_amended Engine.empty "e" "g" (by decide)
  ⟨h.1 [("name", .s "x"), ("user", .o [("id", .s "u")])] (by decide),
   h.2.2.2.1 [("nick", .s "n")] (by decide) rfl (Or.inl rfl) (Or.inl rfl)⟩

/-- C4: index consistency for the entity caches implemented in the source.
After an unbound `update(id, scope, data)` the id is a member of the
scope's index (`isIndexed` true, `id ∈ getIndexMembers`), for the emoji,
role, member, permission-overwrite, channel and guild caches; after
`remove(id, scope)` on an existing record the id is absent from the index
(`isIndexed` false), for the same six caches.  (Channel and guild indexes
are global; the permission-overwrite index is scoped by channel id;
`isIndexed` is `SISMEMBER` on the index set, `getIndexMembers` is
`SMEMBERS`.) -/
theorem c4_index_consistency (g : String) (hg : g ≠ "")
    (stEU stRU stMU stCU stGU : Engine)
    (idE idR idM idC idG : String) (dE dR dM dC dG : Record)
    (stER stRR stMR stCR stGR : Engine) (idER idRR idMR idCR idGR : String)
    (stPU stPR : Engine) (idP idPR : String) (dP : Record)
    (hER : (engineGet stER (emojiBuildId idER g)).isSome)
    (hRR : (engineGet stRR (roleBuildId idRR g)).isSome)
    (hMR : (engineGet stMR (memberBuildId idMR g)).isSome)
    (hCR : (engineGet stCR ("channel." ++ idCR)).isSome)
    (hGR : (engineGet stGR ("guild." ++ idGR)).isSome)
    (hPR : (engineGet stPR (permOverwriteBuildId idPR g)).isSome) :
    (idE ∈ smembers (emojiCacheUpdate stEU idE g dE) ("emoji." ++ g) ∧
      sismember (emojiCacheUpdate stEU idE g dE) ("emoji." ++ g) idE = true) ∧
    (∀ st', roleCacheUpdate stRU idR g dR = .ok st' →
      idR ∈ smembers st' ("role." ++ g) ∧ sismember st' ("role." ++ g) idR = true) ∧
    (∀ st', memberCacheUpdate stMU idM g dM = .ok st' →
      idM ∈ smembers st' ("member." ++ g) ∧ sismember st' ("member." ++ g) idM = true) ∧
    (idC ∈ smembers (channelCacheUpdate stCU idC dC) "channel" ∧
      sismember (channelCacheUpdate stCU idC dC) "channel" idC = true) ∧
    (∀ st', guildCacheUpdate stGU idG dG = .ok st' →
      idG ∈ smembers st' "guild" ∧ sismember st' "guild" idG = true) ∧
    (idER ∉ smembers (emojiCacheRemove stER idER g) ("emoji." ++ g) ∧
      sismember (emojiCacheRemove stER idER g) ("emoji." ++ g) idER = false) ∧
    (idRR ∉ smembers (roleCacheRemove stRR idRR g) ("role." ++ g) ∧
      sismember (roleCacheRemove stRR idRR g) ("role." ++ g) idRR = false) ∧
    (idMR ∉ smembers (memberCacheRemove stMR idMR g) ("member." ++ g) ∧
      sismember (memberCacheRemove stMR idMR g) ("member." ++ g) idMR = false) ∧
    (idCR ∉ smembers (channelCacheRemove stCR idCR) "channel" ∧
      sismember (channelCacheRemove stCR idCR) "channel" idCR = false) ∧
    (idGR ∉ smembers (guildCacheRemove stGR idGR) "guild" ∧
      sismember (guildCacheRemove stGR idGR) "guild" idGR = false) ∧
    (idP ∈ smembers (permissionOverwriteCacheUpdate stPU idP g dP)
        ("permissionoverwrite." ++ g) ∧
      sismember (permissionOverwriteCacheUpdate stPU idP g dP)
        ("permissionoverwrite." ++ g) idP = true) ∧
    (idPR ∉ smembers (permissionOverwriteCacheRemove stPR idPR g)
        ("permissionoverwrite." ++ g) ∧
      sismember (permissionOverwriteCacheRemove stPR idPR g)
        ("permissionoverwrite." ++ g) idPR = false) := by
  have hmm : ∀ (e : Engine) (k i : String), i ∈ smembers e k → sismember e k i = true :=
    fun e k i h => decide_eq_true h
  have hnn : ∀ (e : Engine) (k i : String), i ∉ smembers e k → sismember e k i = false :=
    fun e k i h => decide_eq_false h
  refine ⟨?_, ?_, ?_, ?_, ?_, ?_, ?_, ?_, ?_, ?_, ?_, ?_⟩
  · have h := mem_idx_after_upsert_sadd stEU ("emoji." ++ g) (emojiBuildId idE g) idE dE
      (emojiBuildId_ne_idx idE g hg)
    exact ⟨h, hmm _ _ _ h⟩
  · intro st' hok
    obtain ⟨d', hd'⟩ := roleCacheUpdate_ok_shape stRU idR g dR hg
    rw [hd'] at hok
    cases hok
    have h := mem_idx_after_upsert_sadd stRU ("role." ++ g) (roleBuildId idR g) idR d'
      (roleBuildId_ne_idx idR g hg)
    exact ⟨h, hmm _ _ _ h⟩
  · intro st' hok
    rw [memberCacheUpdate_eq_ok stMU idM g dM hg] at hok
    cases hok
    have h := mem_idx_after_upsert_sadd (memberUserStep stMU (memberDefaulted dM idM g)).1
      ("member." ++ g) (memberBuildId idM g) idM
      (memberUserStep stMU (memberDefaulted dM idM g)).2 (memberBuildId_ne_idx idM g hg)
    exact ⟨h, hmm _ _ _ h⟩
  · obtain ⟨s, d', hd'⟩ := channelCacheUpdate_shape stCU idC dC
    rw [hd']
    have h := mem_idx_after_upsert_sadd s "channel" ("channel." ++ idC) idC d'
      (channelKey_ne_idx idC)
    exact ⟨h, hmm _ _ _ h⟩
  · intro st' hok
    obtain ⟨s, d', hd'⟩ := guildCacheUpdate_ok_shape stGU idG dG st' hok
    rw [hd']
    have h := mem_idx_after_upsert_sadd s "guild" ("guild." ++ idG) idG d'
      (guildKey_ne_idx idG)
    exact ⟨h, hmm _ _ _ h⟩
  · obtain ⟨r, hr⟩ := Option.isSome_iff_exists.mp hER
    have hred : emojiCacheRemove stER idER g
        = deleteKey (srem stER ("emoji." ++ g) idER) (emojiBuildId idER g) := by
      unfold emojiCacheRemove
      rw [hr]
    rw [hred]
    have h := not_mem_idx_after_remove stER ("emoji." ++ g) (emojiBuildId idER g) idER
      (emojiBuildId_ne_idx idER g hg)
    exact ⟨h, hnn _ _ _ h⟩
  · obtain ⟨r, hr⟩ := Option.isSome_iff_exists.mp hRR
    have hred : roleCacheRemove stRR idRR g
        = deleteKey (srem stRR ("role." ++ g) idRR) (roleBuildId idRR g) := by
      unfold roleCacheRemove
      rw [hr]
    rw [hred]
    have h := not_mem_idx_after_remove stRR ("role." ++ g) (roleBuildId idRR g) idRR
      (roleBuildId_ne_idx idRR g hg)
    exact ⟨h, hnn _ _ _ h⟩
  · obtain ⟨r, hr⟩ := Option.isSome_iff_exists.mp hMR
    have hred : memberCacheRemove stMR idMR g
        = deleteKey (srem stMR ("member." ++ g) idMR) (memberBuildId idMR g) := by
      unfold memberCacheRemove
      rw [hr]
    rw [hred]
    have h := not_mem_idx_after_remove stMR ("member." ++ g) (memberBuildId idMR g) idMR
      (memberBuildId_ne_idx idMR g hg)
    exact ⟨h, hnn _ _ _ h⟩
  · obtain ⟨r, hr⟩ := Option.isSome_iff_exists.mp hCR
    have hred : channelCacheRemove stCR idCR
        = deleteKey (srem stCR "channel" idCR) ("channel." ++ idCR) := by
      unfold channelCacheRemove
      rw [hr]
    rw [hred]
    have h := not_mem_idx_after_remove stCR "channel" ("channel." ++ idCR) idCR
      (channelKey_ne_idx idCR)
    exact ⟨h, hnn _ _ _ h⟩
  · obtain ⟨r, hr⟩ := Option.isSome_iff_exists.mp hGR
    have hred : guildCacheRemove stGR idGR
        = deleteKey (srem (channelMapCacheRemove
            ((smembers stGR ("member." ++ idGR)).foldl
              (fun s m => memberCacheRemove s m idGR)
              ((smembers stGR (channelMapKey idGR "guild")).foldl
                (fun s c => channelCacheRemove s c)
                ((smembers stGR ("role." ++ idGR)).foldl
                  (fun s r => roleCacheRemove s r idGR)
                  ((smembers stGR ("emoji." ++ idGR)).foldl
                    (fun s e => emojiCacheRemove s e idGR) stGR))))
            idGR "guild") "guild" idGR) ("guild." ++ idGR) := by
      unfold guildCacheRemove
      rw [hr]
    rw [hred]
    constructor
    · exact not_mem_idx_after_remove _ "guild" ("guild." ++ idGR) idGR (guildKey_ne_idx idGR)
    · exact hnn _ _ _
        (not_mem_idx_after_remove _ "guild" ("guild." ++ idGR) idGR (guildKey_ne_idx idGR))
  · have h := mem_idx_after_upsert_sadd stPU ("permissionoverwrite." ++ g)
      (permOverwriteBuildId idP g) idP dP (permOverwriteBuildId_ne_idx idP g hg)
    exact ⟨h, hmm _ _ _ h⟩
  · obtain ⟨r, hr⟩ := Option.isSome_iff_exists.mp hPR
    have hred : permissionOverwriteCacheRemove stPR idPR g
        = deleteKey (srem stPR ("permissionoverwrite." ++ g) idPR)
            (permOverwriteBuildId idPR g) := by
      unfold permissionOverwriteCacheRemove
      rw [hr]
    rw [hred]
    have h := not_mem_idx_after_remove stPR ("permissionoverwrite." ++ g)
      (permOverwriteBuildId idPR g) idPR (permOverwriteBuildId_ne_idx idPR g hg)
    exact ⟨h, hnn _ _ _ h⟩


theorem c4_index_consistency_witness :
    ("x" : String) ∈ smembers (emojiCacheUpdate Engine.empty "x" "g" []) ("emoji." ++ "g") ∧
    ("x" : String) ∉ smembers (guildCacheRemove c4DemoState "x") "guild" ∧
    ("x" : String) ∉ smembers (permissionOverwriteCacheRemove c4DemoState "x" "g")
      ("permissionoverwrite." ++ "g") :=
  let h := c4_index_consistency "g" (by decide) Engine.empty Engine.empty Engine.empty
    Engine.empty Engine.empty "x" "x" "x" "x" "x" [] [] [] [] []
    c4DemoState c4DemoState c4DemoState c4DemoState c4DemoState "x" "x" "x" "x" "x"
    Engine.empty c4DemoState "x" "x" []
    rfl rfl rfl rfl rfl rfl
  ⟨h.1.1, h.2.2.2.2.2.2.2.2.2.1.1, h.2.2.2.2.2.2.2.2.2.2.2.1⟩

-- Presence coalescing lemmas and C6

theorem presenceStrip_recGet (ev : Record) (k : String)
    (h1 : k ≠ "roles") (h2 : k ≠ "guild_id") :
    recGet (presenceStrip ev) k = recGet ev k := by
  unfold presenceStrip
  by_cases t1 : truthy (recGet ev "roles") = true
  · rw [if_pos t1]
    by_cases t2 : truthy (recGet (recDelete ev "roles") "guild_id") = true
    · rw [if_pos t2, recGet_recDelete_ne _ _ _ h2, recGet_recDelete_ne _ _ _ h1]
    · rw [if_neg t2, recGet_recDelete_ne _ _ _ h1]
  · rw [if_neg t1]
    by_cases t2 : truthy (recGet ev "guild_id") = true
    · rw [if_pos t2, recGet_recDelete_ne _ _ _ h2]
    · rw [if_neg t2]

theorem presenceEntry_strip (ev : Record) (uid : String) (u : Record) :
    presenceEntry (presenceStrip ev) uid u = presenceEntry ev uid u := by
  unfold presenceEntry
  rw [presenceStrip_recGet ev "status" (by decide) (by decide),
    presenceStrip_recGet ev "game" (by decide) (by decide)]

theorem handlePresenceUpdate_eq (q : PQueue) (ev u : Record) (uid : String)
    (hu : recGet ev "user" = some (.o u)) (hid : idOf u = some uid) :
    handlePresenceUpdate q ev =
      match qGet q uid with
      | some old => qSet q uid (assign old (presenceEntry ev uid u))
      | none => qSet q uid (presenceEntry ev uid u) := by
  unfold handlePresenceUpdate
  simp only []
  rw [show recGet (presenceStrip ev) "user" = some (.o u) from
    (presenceStrip_recGet ev "user" (by decide) (by decide)).trans hu]
  simp only [hid, presenceEntry_strip]

/-- C6: two presence-update events for the same user arriving between two
flush ticks leave exactly one entry for that user in the coalescing
buffer, holding the fields of the second event merged over the first; the
flush swaps the whole buffer for an empty one and issues exactly one
storage write per buffered entry — hence one write for that user, which
stores a presence record at the user's key. -/
theorem c6_presence_coalescing (st : Engine) (q0 : PQueue)
    (ev1 ev2 u1 u2 : Record) (uid : String)
    (hq : qGet q0 uid = none)
    (hu1 : recGet ev1 "user" = some (.o u1)) (hid1 : idOf u1 = some uid)
    (hu2 : recGet ev2 "user" = some (.o u2)) (hid2 : idOf u2 = some uid) :
    qGet (handlePresenceUpdate (handlePresenceUpdate q0 ev1) ev2) uid
        = some (assign (presenceEntry ev1 uid u1) (presenceEntry ev2 uid u2)) ∧
    (handlePresenceUpdate (handlePresenceUpdate q0 ev1) ev2).countP
        (fun kv => kv.1 = uid) = 1 ∧
    (flushQueue st (handlePresenceUpdate (handlePresenceUpdate q0 ev1) ev2)).2 = [] ∧
    (engineGet (flushQueue st (handlePresenceUpdate (handlePresenceUpdate q0 ev1) ev2)).1
        ("presence." ++ uid)).isSome := by
  have hq1 : handlePresenceUpdate q0 ev1 = q0 ++ [(uid, presenceEntry ev1 uid u1)] := by
    rw [handlePresenceUpdate_eq q0 ev1 u1 uid hu1 hid1, hq]
    exact alistSet_eq_append_of_none q0 uid _ hq
  have hget1 : qGet (handlePresenceUpdate q0 ev1) uid = some (presenceEntry ev1 uid u1) := by
    rw [hq1]
    show alistGet (q0 ++ [(uid, presenceEntry ev1 uid u1)]) uid = _
    rw [alistGet_append_left _ _ _ hq]
    simp [alistGet]
  have hq2 : handlePresenceUpdate (handlePresenceUpdate q0 ev1) ev2
      = q0 ++ [(uid, assign (presenceEntry ev1 uid u1) (presenceEntry ev2 uid u2))] := by
    rw [handlePresenceUpdate_eq _ ev2 u2 uid hu2 hid2, hget1, hq1]
    show alistSet _ _ _ = _
    rw [alistSet_append_right _ _ _ _ hq]
    simp [alistSet]
  refine ⟨?_, ?_, rfl, ?_⟩
  · rw [hq2]
    show alistGet _ _ = _
    rw [alistGet_append_left _ _ _ hq]
    simp [alistGet]
  · rw [hq2, List.countP_append]
    rw [countP_eq_zero_of_alistGet_none q0 uid hq]
    simp [List.countP_cons]
  · rw [hq2]
    unfold flushQueue
    simp only [List.foldl_append, List.foldl_cons, List.foldl_nil]
    unfold presenceCacheUpdate
    rw [engineGet_engineUpsert_self]
    rfl

theorem c6_presence_coalescing_witness :
    qGet (handlePresenceUpdate (handlePresenceUpdate []
        [("status", .s "online"), ("user", .o [("id", .s "1")])])
        [("status", .s "idle"), ("user", .o [("id", .s "1")])]) "1"
      = some (assign
          (presenceEntry [("status", .s "online"), ("user", .o [("id", .s "1")])]
            "1" [("id", .s "1")])
          (presenceEntry [("status", .s "idle"), ("user", .o [("id", .s "1")])]
            "1" [("id", .s "1")])) ∧
    (handlePresenceUpdate (handlePresenceUpdate []
        [("status", .s "online"), ("user", .o [("id", .s "1")])])
        [("status", .s "idle"), ("user", .o [("id", .s "1")])]).countP
        (fun kv => kv.1 = "1") = 1 ∧
    (flushQueue Engine.empty (handlePresenceUpdate (handlePresenceUpdate []
        [("status", .s "online"), ("user", .o [("id", .s "1")])])
        [("status", .s "idle"), ("user", .o [("id", .s "1")])])).2 = [] ∧
    (engineGet (flushQueue Engine.empty (handlePresenceUpdate (handlePresenceUpdate []
        [("status", .s "online"), ("user", .o [("id", .s "1")])])
        [("status", .s "idle"), ("user", .o [("id", .s "1")])])).1
        ("presence." ++ "1")).isSome :=
  c6_presence_coalescing Engine.empty [] _ _ _ _ "1" rfl rfl rfl rfl rfl

-- Emoji-diff lemmas and C7

theorem emojiCacheUpdate_engineGet_ne (s : Engine) (x g : String) (e : Record)
    (k : String) (h1 : k ≠ emojiBuildId x g) (h2 : k ≠ "emoji." ++ g) :
    engineGet (emojiCacheUpdate s x g e) k = engineGet s k := by
  unfold emojiCacheUpdate
  rw [engineGet_engineUpsert_ne _ _ _ _ h1, engineGet_sadd _ _ _ _ h2]

theorem emojiCacheUpdate_mem_idx (s : Engine) (x g : String) (e : Record)
    (hne : emojiBuildId x g ≠ "emoji." ++ g) (y : String) :
    y ∈ smembers (emojiCacheUpdate s x g e) ("emoji." ++ g) ↔
      y ∈ smembers s ("emoji." ++ g) ∨ y = x := by
  unfold emojiCacheUpdate
  rw [smembers_engineUpsert _ _ _ _ (Ne.symm hne), mem_smembers_sadd_self]
  simp

/-- C7: a `GUILD_EMOJIS_UPDATE` on a guild whose emoji index holds
`{a, b, c}` (with consistent records), carrying the new list
`{b, c, d}`, removes `a`'s record and index entry, re-upserts `b` and `c`,
and adds `d`: the final indexed set is exactly `{b, c, d}` and the records
of `b`, `c`, `d` exist while `a`'s is gone. -/
theorem c7_emoji_diff_reconciliation (st : Engine) (g a b c d : String)
    (ra rb rc eb ec ed : Record) (hg : g ≠ "")
    (hab : a ≠ b) (hac : a ≠ c) (had : a ≠ d)
    (hbc : b ≠ c) (hbd : b ≠ d) (hcd : c ≠ d)
    (hidx : smembers st ("emoji." ++ g) = [a, b, c])
    (hra : engineGet st (emojiBuildId a g) = some ra) (hia : idOf ra = some a)
    (hrb : engineGet st (emojiBuildId b g) = some rb) (hib : idOf rb = some b)
    (hrc : engineGet st (emojiBuildId c g) = some rc) (hic : idOf rc = some c)
    (hieb : idOf eb = some b) (hiec : idOf ec = some c) (hied : idOf ed = some d) :
    (∀ x, x ∈ smembers (processGuildEmojisUpdate st g [eb, ec, ed]) ("emoji." ++ g) ↔
        (x = b ∨ x = c ∨ x = d)) ∧
    engineGet (processGuildEmojisUpdate st g [eb, ec, ed]) (emojiBuildId a g) = none ∧
    (engineGet (processGuildEmojisUpdate st g [eb, ec, ed]) (emojiBuildId b g)).isSome ∧
    (engineGet (processGuildEmojisUpdate st g [eb, ec, ed]) (emojiBuildId c g)).isSome ∧
    (engineGet (processGuildEmojisUpdate st g [eb, ec, ed]) (emojiBuildId d g)).isSome := by
  have hkne : ∀ x, emojiBuildId x g ≠ "emoji." ++ g := fun x => emojiBuildId_ne_idx x g hg
  have hkinj : ∀ x y : String, x ≠ y → emojiBuildId x g ≠ emojiBuildId y g :=
    fun x y h he => h (emojiBuildId_inj g hg x y he)
  have hform : processGuildEmojisUpdate st g [eb, ec, ed]
      = emojiCacheRemove
          (emojiCacheUpdate (emojiCacheUpdate (emojiCacheUpdate st b g eb) c g ec) d g ed)
          a g := by
    unfold processGuildEmojisUpdate
    simp only [hidx, List.map_cons, List.map_nil, hra, hrb, hrc,
      List.foldl_cons, List.foldl_nil, hieb, hiec, hied, hia, hib, hic,
      List.any_cons, List.any_nil, Option.some.injEq,
      Ne.symm hab, Ne.symm hac, Ne.symm had]
    simp [Ne.symm hbc, hbc, hbd, hcd]
  have hr1 : engineGet
      (emojiCacheUpdate (emojiCacheUpdate (emojiCacheUpdate st b g eb) c g ec) d g ed)
      (emojiBuildId a g) = some ra := by
    rw [emojiCacheUpdate_engineGet_ne _ _ _ _ _ (hkinj a d had) (hkne a),
      emojiCacheUpdate_engineGet_ne _ _ _ _ _ (hkinj a c hac) (hkne a),
      emojiCacheUpdate_engineGet_ne _ _ _ _ _ (hkinj a b hab) (hkne a)]
    exact hra
  have hrem : processGuildEmojisUpdate st g [eb, ec, ed]
      = deleteKey (srem
          (emojiCacheUpdate (emojiCacheUpdate (emojiCacheUpdate st b g eb) c g ec) d g ed)
          ("emoji." ++ g) a) (emojiBuildId a g) := by
    rw [hform]
    unfold emojiCacheRemove
    rw [hr1]
  refine ⟨?_, ?_, ?_, ?_, ?_⟩
  · intro x
    rw [hrem, smembers_deleteKey, if_neg (fun he => hkne a he.symm), smembers_srem_self,
      List.mem_filter]
    simp only [decide_eq_true_eq]
    rw [emojiCacheUpdate_mem_idx _ _ _ _ (hkne d),
      emojiCacheUpdate_mem_idx _ _ _ _ (hkne c),
      emojiCacheUpdate_mem_idx _ _ _ _ (hkne b), hidx]
    simp only [List.mem_cons, List.not_mem_nil, or_false]
    constructor
    · rintro ⟨(((rfl | rfl | rfl) | rfl) | rfl) | rfl, hxa⟩ <;> tauto
    · rintro (rfl | rfl | rfl)
      · exact ⟨Or.inl (Or.inl (Or.inr rfl)), Ne.symm hab⟩
      · exact ⟨Or.inl (Or.inr rfl), Ne.symm hac⟩
      · exact ⟨Or.inr rfl, Ne.symm had⟩
  · rw [hrem, engineGet_deleteKey, if_pos rfl]
  · rw [hrem, engineGet_deleteKey, if_neg (hkinj b a (Ne.symm hab)),
      engineGet_srem _ _ _ _ (hkne b),
      emojiCacheUpdate_engineGet_ne _ _ _ _ _ (hkinj b d hbd) (hkne b),
      emojiCacheUpdate_engineGet_ne _ _ _ _ _ (hkinj b c hbc) (hkne b)]
    unfold emojiCacheUpdate
    rw [engineGet_engineUpsert_self]
    rfl
  · rw [hrem, engineGet_deleteKey, if_neg (hkinj c a (Ne.symm hac)),
      engineGet_srem _ _ _ _ (hkne c),
      emojiCacheUpdate_engineGet_ne _ _ _ _ _ (hkinj c d hcd) (hkne c)]
    unfold emojiCacheUpdate
    rw [engineGet_engineUpsert_self]
    rfl
  · rw [hrem, engineGet_deleteKey, if_neg (hkinj d a (Ne.symm had)),
      engineGet_srem _ _ _ _ (hkne d)]
    unfold emojiCacheUpdate
    rw [engineGet_engineUpsert_self]
    rfl


theorem c7_emoji_diff_reconciliation_witness :
    (("a" : String) ∈ smembers (processGuildEmojisUpdate c7DemoState "g"
        [[("id", .s "b")], [("id", .s "c")], [("id", .s "d")]]) ("emoji." ++ "g") ↔
      (("a" : String) = "b" ∨ ("a" : String) = "c" ∨ ("a" : String) = "d")) ∧
    engineGet (processGuildEmojisUpdate c7DemoState "g"
        [[("id", .s "b")], [("id", .s "c")], [("id", .s "d")]]) (emojiBuildId "a" "g")
      = none ∧
    (engineGet (processGuildEmojisUpdate c7DemoState "g"
        [[("id", .s "b")], [("id", .s "c")], [("id", .s "d")]])
        (emojiBuildId "d" "g")).isSome :=
  let h := c7_emoji_diff_reconciliation c7DemoState "g" "a" "b" "c" "d"
    [("id", .s "a")] [("id", .s "b")] [("id", .s "c")]
    [("id", .s "b")] [("id", .s "c")] [("id", .s "d")]
    (by decide) (by decide) (by decide) (by decide) (by decide) (by decide) (by decide)
    rfl rfl rfl rfl rfl rfl rfl rfl rfl rfl
  ⟨h.1 "a", h.2.1, h.2.2.2.2⟩

theorem deleteKey_app_self (e : Engine) (k : String) : deleteKey e k k = none := by
  unfold deleteKey
  rw [if_pos rfl]

theorem deleteKey_app_ne (e : Engine) (k k' : String) (h : k' ≠ k) :
    deleteKey e k k' = e k' := by
  unfold deleteKey
  rw [if_neg h]

theorem srem_app_ne (e : Engine) (k i k' : String) (h : k' ≠ k) :
    srem e k i k' = e k' := by
  unfold srem updateKey
  rw [if_neg h]

theorem engineGet_deleteKey_none (s : Engine) (k k' : String)
    (h : engineGet s k = none) : engineGet (deleteKey s k') k = none := by
  rw [engineGet_deleteKey]
  by_cases hk : k = k'
  · rw [if_pos hk]
  · rw [if_neg hk]
    exact h

/-- C3: removing an existing guild (non-empty id, every indexed role and
member having a record) cascades: the guild's role index and member index
are left empty, every channel listed in the guild's ChannelMap record is
deleted, the ChannelMap record itself is deleted, the guild id is removed
from the global guild index, and the guild record is deleted. -/
theorem c3_guild_cascade (st : Engine) (gid : String) (hg : gid ≠ "")
    (hex : (engineGet st ("guild." ++ gid)).isSome)
    (hroles : ∀ r ∈ smembers st ("role." ++ gid),
      (engineGet st (roleBuildId r gid)).isSome)
    (hmembers : ∀ m ∈ smembers st ("member." ++ gid),
      (engineGet st (memberBuildId m gid)).isSome) :
    smembers (guildCacheRemove st gid) ("role." ++ gid) = [] ∧
    smembers (guildCacheRemove st gid) ("member." ++ gid) = [] ∧
    (∀ c ∈ smembers st (channelMapKey gid "guild"),
      engineGet (guildCacheRemove st gid) ("channel." ++ c) = none) ∧
    guildCacheRemove st gid (channelMapKey gid "guild") = none ∧
    gid ∉ smembers (guildCacheRemove st gid) "guild" ∧
    engineGet (guildCacheRemove st gid) ("guild." ++ gid) = none := by
  obtain ⟨gr, hgr⟩ := Option.isSome_iff_exists.mp hex
  -- prefix-disjointness toolkit
  have hpne : ∀ (p₁ p₂ : String), 1 ≤ p₁.data.length → 1 ≤ p₂.data.length →
      p₁.data.take 1 ≠ p₂.data.take 1 → ∀ x y, (p₁ ++ x) ≠ (p₂ ++ y) :=
    fun p₁ p₂ h1 h2 h x y => append_ne_of_take_ne p₁ p₂ x y 1 h1 h2 h
  have hne_lit : ∀ (p x q : String), 1 ≤ p.data.length → 1 ≤ q.data.length →
      p.data.take 1 ≠ q.data.take 1 → (p ++ x) ≠ q := by
    intro p x q h1 h2 h
    have hq := append_ne_of_take_ne p q x "" 1 h1 h2 h
    rwa [String.append_empty] at hq
  have hebid : ∀ x, emojiBuildId x gid = "emoji." ++ (gid ++ ("." ++ x)) := by
    intro x
    unfold emojiBuildId
    rw [if_neg hg]
  have hrbid : ∀ x, roleBuildId x gid = "role." ++ (gid ++ ("." ++ x)) := by
    intro x
    unfold roleBuildId
    rw [if_neg hg]
  have hmbid : ∀ x, memberBuildId x gid = "member." ++ (gid ++ ("." ++ x)) := by
    intro x
    unfold memberBuildId
    rw [if_neg hg]
  have hcmk : channelMapKey gid "guild" = "channelmap." ++ ("guild" ++ ("." ++ gid)) := rfl
  have hre : ∀ x y, ("role." ++ x) ≠ ("emoji." ++ y) :=
    hpne "role." "emoji." (by decide) (by decide) (by decide)
  have hrc : ∀ x y, ("role." ++ x) ≠ ("channel." ++ y) :=
    hpne "role." "channel." (by decide) (by decide) (by decide)
  have hrm : ∀ x y, ("role." ++ x) ≠ ("member." ++ y) :=
    hpne "role." "member." (by decide) (by decide) (by decide)
  have hrcm : ∀ x y, ("role." ++ x) ≠ ("channelmap." ++ y) :=
    hpne "role." "channelmap." (by decide) (by decide) (by decide)
  have hrg : ∀ x y, ("role." ++ x) ≠ ("guild." ++ y) :=
    hpne "role." "guild." (by decide) (by decide) (by decide)
  have hrC : ∀ x, ("role." ++ x) ≠ "channel" :=
    fun x => hne_lit "role." x "channel" (by decide) (by decide) (by decide)
  have hrG : ∀ x, ("role." ++ x) ≠ "guild" :=
    fun x => hne_lit "role." x "guild" (by decide) (by decide) (by decide)
  have hme : ∀ x y, ("member." ++ x) ≠ ("emoji." ++ y) :=
    hpne "member." "emoji." (by decide) (by decide) (by decide)
  have hmr : ∀ x y, ("member." ++ x) ≠ ("role." ++ y) :=
    hpne "member." "role." (by decide) (by decide) (by decide)
  have hmc : ∀ x y, ("member." ++ x) ≠ ("channel." ++ y) :=
    hpne "member." "channel." (by decide) (by decide) (by decide)
  have hmcm : ∀ x y, ("member." ++ x) ≠ ("channelmap." ++ y) :=
    hpne "member." "channelmap." (by decide) (by decide) (by decide)
  have hmg : ∀ x y, ("member." ++ x) ≠ ("guild." ++ y) :=
    hpne "member." "guild." (by decide) (by decide) (by decide)
  have hmC : ∀ x, ("member." ++ x) ≠ "channel" :=
    fun x => hne_lit "member." x "channel" (by decide) (by decide) (by decide)
  have hmG : ∀ x, ("member." ++ x) ≠ "guild" :=
    fun x => hne_lit "member." x "guild" (by decide) (by decide) (by decide)
  have hcm' : ∀ x y, ("channel." ++ x) ≠ ("member." ++ y) :=
    hpne "channel." "member." (by decide) (by decide) (by decide)
  have hcg : ∀ x y, ("channel." ++ x) ≠ ("guild." ++ y) :=
    hpne "channel." "guild." (by decide) (by decide) (by decide)
  have hcG : ∀ x, ("channel." ++ x) ≠ "guild" :=
    fun x => hne_lit "channel." x "guild" (by decide) (by decide) (by decide)
  have hcmG : ∀ x, ("channelmap." ++ x) ≠ "guild" :=
    fun x => hne_lit "channelmap." x "guild" (by decide) (by decide) (by decide)
  have hcmg : ∀ x y, ("channelmap." ++ x) ≠ ("guild." ++ y) :=
    hpne "channelmap." "guild." (by decide) (by decide) (by decide)
  -- the cascade in closed form
  have hform : guildCacheRemove st gid
      = deleteKey (srem (deleteKey
          ((smembers st ("member." ++ gid)).foldl
            (idxRemove (fun i => memberBuildId i gid) ("member." ++ gid))
            ((smembers st (channelMapKey gid "guild")).foldl
              (idxRemove (fun i => "channel." ++ i) "channel")
              ((smembers st ("role." ++ gid)).foldl
                (idxRemove (fun i => roleBuildId i gid) ("role." ++ gid))
                ((smembers st ("emoji." ++ gid)).foldl
                  (idxRemove (fun i => emojiBuildId i gid) ("emoji." ++ gid)) st))))
          (channelMapKey gid "guild")) "guild" gid) ("guild." ++ gid) := by
    unfold guildCacheRemove
    rw [hgr]
    rfl
  -- state after the emoji fold
  have hst1R : smembers ((smembers st ("emoji." ++ gid)).foldl
      (idxRemove (fun i => emojiBuildId i gid) ("emoji." ++ gid)) st) ("role." ++ gid)
      = smembers st ("role." ++ gid) :=
    foldl_idxRemove_smembers _ _ _ _ _
      (fun i _ => by rw [hebid i]; exact hre gid _) (hre gid gid)
  have hst1M : smembers ((smembers st ("emoji." ++ gid)).foldl
      (idxRemove (fun i => emojiBuildId i gid) ("emoji." ++ gid)) st) ("member." ++ gid)
      = smembers st ("member." ++ gid) :=
    foldl_idxRemove_smembers _ _ _ _ _
      (fun i _ => by rw [hebid i]; exact hme gid _) (hme gid gid)
  have hst1Rrec : ∀ x, engineGet ((smembers st ("emoji." ++ gid)).foldl
      (idxRemove (fun i => emojiBuildId i gid) ("emoji." ++ gid)) st) (roleBuildId x gid)
      = engineGet st (roleBuildId x gid) := fun x =>
    foldl_idxRemove_engineGet _ _ _ _ _
      (fun i _ => by rw [hrbid x, hebid i]; exact hre _ _)
      (by rw [hrbid x]; exact hre _ gid)
  have hst1Mrec : ∀ x, engineGet ((smembers st ("emoji." ++ gid)).foldl
      (idxRemove (fun i => emojiBuildId i gid) ("emoji." ++ gid)) st) (memberBuildId x gid)
      = engineGet st (memberBuildId x gid) := fun x =>
    foldl_idxRemove_engineGet _ _ _ _ _
      (fun i _ => by rw [hmbid x, hebid i]; exact hme _ _)
      (by rw [hmbid x]; exact hme _ gid)
  -- state after the role fold: the role index is empty
  have hst2R : smembers ((smembers st ("role." ++ gid)).foldl
      (idxRemove (fun i => roleBuildId i gid) ("role." ++ gid))
      ((smembers st ("emoji." ++ gid)).foldl
        (idxRemove (fun i => emojiBuildId i gid) ("emoji." ++ gid)) st)) ("role." ++ gid)
      = [] := by
    apply foldl_idxRemove_empty _ _ (roleBuildId_inj gid hg)
      (fun a => roleBuildId_ne_idx a gid hg)
    · intro x hx
      rw [hst1R] at hx
      exact hx
    · intro x hx
      rw [hst1R] at hx
      rw [hst1Rrec x]
      exact hroles x hx
  have hst2M : smembers ((smembers st ("role." ++ gid)).foldl
      (idxRemove (fun i => roleBuildId i gid) ("role." ++ gid))
      ((smembers st ("emoji." ++ gid)).foldl
        (idxRemove (fun i => emojiBuildId i gid) ("emoji." ++ gid)) st)) ("member." ++ gid)
      = smembers st ("member." ++ gid) := by
    rw [foldl_idxRemove_smembers _ _ _ _ _
      (fun i _ => by rw [hrbid i]; exact hmr gid _) (hmr gid gid)]
    exact hst1M
  have hst2Mrec : ∀ x, engineGet ((smembers st ("role." ++ gid)).foldl
      (idxRemove (fun i => roleBuildId i gid) ("role." ++ gid))
      ((smembers st ("emoji." ++ gid)).foldl
        (idxRemove (fun i => emojiBuildId i gid) ("emoji." ++ gid)) st)) (memberBuildId x gid)
      = engineGet st (memberBuildId x gid) := by
    intro x
    rw [foldl_idxRemove_engineGet _ _ _ _ _
      (fun i _ => by rw [hmbid x, hrbid i]; exact hmr _ _)
      (by rw [hmbid x]; exact hmr _ gid)]
    exact hst1Mrec x
  refine ⟨?_, ?_, ?_, ?_, ?_, ?_⟩
  · -- role index empty
    rw [hform, smembers_deleteKey, if_neg (hrg gid gid),
      smembers_srem_ne _ _ _ _ (hrG gid), smembers_deleteKey,
      if_neg (fun he => hrcm gid _ (he.trans hcmk)),
      foldl_idxRemove_smembers _ _ _ _ _ (fun i _ => (hmbid i) ▸ hrm gid _) (hrm gid gid),
      foldl_idxRemove_smembers _ _ _ _ _ (fun i _ => hrc gid i) (hrC gid)]
    exact hst2R
  · -- member index empty
    rw [hform, smembers_deleteKey, if_neg (hmg gid gid),
      smembers_srem_ne _ _ _ _ (hmG gid), smembers_deleteKey,
      if_neg (fun he => hmcm gid _ (he.trans hcmk))]
    apply foldl_idxRemove_empty _ _ (memberBuildId_inj gid hg)
      (fun a => memberBuildId_ne_idx a gid hg)
    · intro x hx
      rw [foldl_idxRemove_smembers _ _ _ _ _ (fun i _ => hmc gid i) (hmC gid), hst2M] at hx
      exact hx
    · intro x hx
      rw [foldl_idxRemove_smembers _ _ _ _ _ (fun i _ => hmc gid i) (hmC gid), hst2M] at hx
      rw [foldl_idxRemove_engineGet _ _ _ _ _
        (fun i _ => by rw [hmbid x]; exact hmc _ i)
        (by rw [hmbid x]; exact hmC _), hst2Mrec x]
      exact hmembers x hx
  · -- channel records deleted
    intro c hc
    rw [hform]
    apply engineGet_deleteKey_none
    rw [engineGet_srem _ _ _ _ (hcG c)]
    apply engineGet_deleteKey_none
    apply foldl_idxRemove_none _ _ _ _ _ (hcm' c gid)
    exact foldl_idxRemove_bid_none _ _ (fun a => channelKey_ne_idx a) _ _ c hc
  · -- the ChannelMap record is gone
    rw [hform]
    rw [deleteKey_app_ne _ _ _ (fun he => hcmg _ gid (hcmk.symm.trans he))]
    rw [srem_app_ne _ _ _ _ (fun he => hcmG _ (hcmk.symm.trans he))]
    exact deleteKey_app_self _ _
  · -- the guild id is out of the global guild index
    rw [hform, smembers_deleteKey, if_neg (fun he => guildKey_ne_idx gid he.symm),
      smembers_srem_self]
    simp
  · -- the guild record is gone
    rw [hform, engineGet_deleteKey, if_pos rfl]


theorem c3_guild_cascade_witness :
    smembers (guildCacheRemove c3DemoState "G") ("role." ++ "G") = [] ∧
    smembers (guildCacheRemove c3DemoState "G") ("member." ++ "G") = [] ∧
    engineGet (guildCacheRemove c3DemoState "G") ("channel." ++ "ch1") = none ∧
    guildCacheRemove c3DemoState "G" (channelMapKey "G" "guild") = none ∧
    "G" ∉ smembers (guildCacheRemove c3DemoState "G") "guild" ∧
    engineGet (guildCacheRemove c3DemoState "G") ("guild." ++ "G") = none :=
  let h := c3_guild_cascade c3DemoState "G" (by decide) rfl (by decide) (by decide)
  ⟨h.1, h.2.1, h.2.2.1 "ch1" (by decide), h.2.2.2.1, h.2.2.2.2.1, h.2.2.2.2.2⟩
